import Mathlib

/-!
# SensorArray (src/stream.js): a shallow embedding

The class `SensorArray` of `src/stream.js` is embedded as pure functions over an
explicit state record.  Private fields become record fields, methods become
functions returning the state after the call, a `throw` becomes an `Outcome`
with an error, and the async generator `#generateStream` becomes a step
function on its suspension points.
-/

namespace Stream

/-! ## JavaScript values reaching the `delay` setter -/

/-- A primitive JavaScript value (Symbol and BigInt apart).  `int i` is a Number
whose value is the integer `i`, identified by the decimal value that
`Number::toString` prints for it (`-0` is identified with `0`).
`frac neg m e` is a finite Number that is not an integer, of value
`±m / 10^e` with `e ≥ 1` and `m` not divisible by ten, the digits of `m` being
the digits `Number::toString` prints. -/
inductive JSValue where
  | undefined
  | null
  | bool (b : Bool)
  | int (i : Int)
  | frac (neg : Bool) (m e : Nat)
  | nan
  | infinity (neg : Bool)
  | str (s : String)
  deriving DecidableEq, Repr

/-- The message of a thrown `TypeError`, abridged. -/
abbrev TypeError := String

/-- The result of running a method: the state it leaves and the error it threw,
if any. -/
structure Outcome (σ : Type) where
  state : σ
  error : Option TypeError

/-- Decimal digits of `n`, most significant first; `fuel` bounds their number. -/
def digitsAux : Nat → Nat → List Nat → List Nat
  | 0, _, acc => acc
  | fuel + 1, n, acc =>
    if n < 10 then n :: acc else digitsAux fuel (n / 10) (n % 10 :: acc)

/-- Decimal digits of `n`, most significant first (`[0]` for zero). -/
def decimalDigits (n : Nat) : List Nat := digitsAux (n + 1) n []

/-- The character of a decimal digit. -/
def digitChar (d : Nat) : Char := Char.ofNat (48 + d)

/-- A digit list without its trailing zeros. -/
def stripTrailingZeros (ds : List Nat) : List Nat :=
  (ds.reverse.dropWhile (fun d => d == 0)).reverse

/-- The exponent part of `Number::toString`: `e`, the sign, and the decimal
digits of `|n - 1|`. -/
def exponentPart (n : Int) : List Char :=
  'e' :: (if 0 ≤ n - 1 then '+' else '-') :: (decimalDigits (n - 1).natAbs).map digitChar

/-- The abstract operation `Number::toString(x, 10)` of ECMAScript for a
positive finite Number of shortest digits `ds` (`k` of them) and decimal
exponent `n`, that is of value `0.ds × 10^n`. -/
def positiveToString (ds : List Nat) (n : Int) : List Char :=
  let k : Int := ds.length
  let cs := ds.map digitChar
  if k ≤ n ∧ n ≤ 21 then
    cs ++ List.replicate (n - k).toNat '0'
  else if 0 < n ∧ n ≤ 21 then
    cs.take n.toNat ++ '.' :: cs.drop n.toNat
  else if -6 < n ∧ n ≤ 0 then
    '0' :: '.' :: (List.replicate (-n).toNat '0' ++ cs)
  else
    match cs with
    | [] => []
    | [c] => c :: exponentPart n
    | c :: rest => c :: '.' :: (rest ++ exponentPart n)

/-- The abstract operation `ToString` of ECMAScript on the values of `JSValue`. -/
def toJSString : JSValue → List Char
  | .undefined => "undefined".toList
  | .null => "null".toList
  | .bool true => "true".toList
  | .bool false => "false".toList
  | .int i =>
    if i = 0 then ['0']
    else
      let all := decimalDigits i.natAbs
      (if i < 0 then ['-'] else []) ++ positiveToString (stripTrailingZeros all) all.length
  | .frac neg m e =>
    let ds := decimalDigits m
    (if neg then ['-'] else []) ++ positiveToString ds ((ds.length : Int) - e)
  | .nan => "NaN".toList
  | .infinity neg => (if neg then ['-'] else []) ++ "Infinity".toList
  | .str s => s.toList

/-- The characters `StrWhiteSpaceChar` of ECMAScript: white space and line
terminators. -/
def isStrWhiteSpaceChar (c : Char) : Bool :=
  let n := c.toNat
  n == 9 || n == 10 || n == 11 || n == 12 || n == 13 || n == 32 || n == 160 ||
  n == 5760 || (8192 ≤ n && n ≤ 8202) || n == 8232 || n == 8233 || n == 8239 ||
  n == 8287 || n == 12288 || n == 65279

/-- The value of a character as a digit of the given radix (10 or 16). -/
def digitValue (radix : Nat) (c : Char) : Option Nat :=
  let n := c.toNat
  if 48 ≤ n ∧ n ≤ 57 then some (n - 48)
  else if radix = 16 ∧ 97 ≤ n ∧ n ≤ 102 then some (n - 87)
  else if radix = 16 ∧ 65 ≤ n ∧ n ≤ 70 then some (n - 55)
  else none

/-- The integer denoted by the longest prefix of radix digits, with the number
of digits read. -/
def readDigits (radix : Nat) : List Char → Nat → Nat → Nat × Nat
  | [], acc, count => (acc, count)
  | c :: cs, acc, count =>
    match digitValue radix c with
    | some d => readDigits radix cs (acc * radix + d) (count + 1)
    | none => (acc, count)

/-- The least integer that rounds to `Infinity` as a Number:
`2^1024 - 2^970`, written as `(2^54 - 1) * 2^970` with `2^970 = (2^194)^5`. -/
def overflowBound : Nat := (2 ^ 54 - 1) * (2 ^ 194) ^ 5

/-- The function `Number.parseInt(string)` without a radix, on a string: leading
white space is dropped, a sign is read, a `0x` prefix selects radix 16, and
the longest prefix of digits is the result; no digit gives `NaN`.  The result
is the exact integer: its rounding to the nearest double is not modelled,
except for the overflow to `Infinity`. -/
def parseIntChars (input : List Char) : JSValue :=
  let s := input.dropWhile isStrWhiteSpaceChar
  let negative := s.head? == some '-'
  let s := if s.head? == some '-' || s.head? == some '+' then s.tail else s
  let hex := s.head? == some '0' && (s.tail.head? == some 'x' || s.tail.head? == some 'X')
  let radix := if hex then 16 else 10
  let s := if hex then s.drop 2 else s
  let r := readDigits radix s 0 0
  if r.2 = 0 then .nan
  else if overflowBound ≤ r.1 then .infinity negative
  else .int (if negative then -(r.1 : Int) else r.1)

/-- The function `Number.parseInt(value)`: the value is converted to a string
first. -/
def Number.parseInt (value : JSValue) : JSValue := parseIntChars (toJSString value)

/-- The function `Number.isInteger(value)`. -/
def Number.isInteger : JSValue → Bool
  | .int _ => true
  | _ => false

/-- The integer of a value for which `Number.isInteger` holds. -/
def Number.integerOf : JSValue → Option Int
  | .int i => some i
  | _ => none

/-- The abstract operation `ToBoolean` of ECMAScript, written `!!value` in the
source. -/
def toBoolean : JSValue → Bool
  | .undefined => false
  | .null => false
  | .bool b => b
  | .int i => i != 0
  | .frac _ _ _ => true
  | .nan => false
  | .infinity _ => true
  | .str s => s != ""

/-! ## Objects, samples and sensors -/

/-- A plain data object as the list of its own properties, all enumerable, in
the order of `Object.getOwnPropertyNames`.  A well-formed object names each
key once (`JSObject.WF`). -/
abbrev JSObject (β : Type) := List (String × β)

/-- The own property names of an object, `Object.keys(o)`. -/
def JSObject.keys {β : Type} (o : JSObject β) : List String := o.map Prod.fst

/-- Each key of the object is named once. -/
def JSObject.WF {β : Type} (o : JSObject β) : Prop := (JSObject.keys o).Nodup

/-- The property read `o[k]`; `none` is `undefined`. -/
def JSObject.get {β : Type} : JSObject β → String → Option β
  | [], _ => none
  | (k', v) :: rest, k => if k' = k then some v else JSObject.get rest k

/-- The property write `o[k] = v`: an existing property keeps its position, a
new one is created last.  JavaScript lists integer-like keys before the
others; that reordering is not modelled, so the lists agree with the code in
what each key holds and not always in the order of the keys. -/
def JSObject.set {β : Type} : JSObject β → String → β → JSObject β
  | [], k, v => [(k, v)]
  | (k', v') :: rest, k, v =>
    if k' = k then (k', v) :: rest else (k', v') :: JSObject.set rest k v

/-- Copying the own properties of `source` onto `target` in order: the spread
`{ ...target, ...source }` and `Object.assign(target, source)`. -/
def JSObject.assign {β : Type} (target source : JSObject β) : JSObject β :=
  source.foldl (fun acc kv => JSObject.set acc kv.1 kv.2) target

/-- A top-level value of a contribution or snapshot: a primitive, or an object
whose properties hold values of the leaf type `α` (numbers, times, nested
data). -/
inductive Field (α : Type) where
  | prim (a : α)
  | obj (props : JSObject α)
  deriving DecidableEq, Repr

/-- A mapping from key to value: a sensor contribution or a snapshot. -/
abbrev NamedState (α : Type) := JSObject (Field α)

/-- The key under which capture and assembly times are stored. -/
def timestampKey : String := "$timestamp"

/-- Modelled from the spec: the Sample a sensor hands out (`sensor.js` is not
among the sources).  Only its `$timestamp` property, the capture time, is read
by the array; the rest is the payload given to `extractState`. -/
structure Sample (α : Type) where
  timestamp : α
  payload : JSObject α

/-- Modelled from the spec: the Sensor capability (`sensor.js` is not among
the sources), as the array sees one sensor object at one moment.  `ref` is the
identity of the object, `timestamp` its mutable flag, `hasData` the answer of
`hasData()`, `popData` the sample that `popData()` resolves to, and
`extractState` the pure function `extractState(sample)`.  The record stands
for the sensor until an event replaces it: a sensor that is not replaced
answers every poll alike, as one that receives a reading between two polls. -/
structure Sensor (α : Type) where
  ref : Nat
  timestamp : Bool
  hasData : Bool
  popData : Sample α
  extractState : Sample α → NamedState α

/-- An argument of `add`, `remove` and `from`: a `Sensor` instance, or a value
for which `instanceof Sensor` is false. -/
inductive Candidate (α : Type) where
  | sensor (s : Sensor α)
  | other (v : JSValue)

/-! ## The class SensorArray -/

/-- The sentinel string of the delay setter. -/
def frameSentinel : String := "requestAnimationFrame"

/-- What the field `#delay` holds: the initial `0` or an integer stored by the
setter, or the sentinel string stored verbatim. -/
inductive Delay where
  | ms (i : Int)
  | animationFrame
  deriving DecidableEq, Repr

/-- The JavaScript value of a stored delay. -/
def Delay.toJS : Delay → JSValue
  | .ms i => .int i
  | .animationFrame => .str frameSentinel

/-- The private fields of a `SensorArray`, with their initial values in
`SensorArray.new`. -/
structure SensorArray (α : Type) where
  sensors : List (Sensor α)
  isStreaming : Bool
  accumulate : Bool
  state : NamedState α
  delay : Delay
  animationFrameDelay : Bool
  timestamp : Bool

/-- The field initialisers of the class (lines 4 to 10). -/
def SensorArray.new (α : Type) : SensorArray α :=
  { sensors := [], isStreaming := false, accumulate := false, state := [],
    delay := .ms 0, animationFrameDelay := false, timestamp := true }

/-- The getter `get delay()`. -/
def SensorArray.getDelay {α : Type} (a : SensorArray α) : JSValue := a.delay.toJS

/-- The setter `set delay(value)` (lines 48 to 62).  The sentinel string is
stored verbatim and sets `#animationFrameDelay`; any other value goes through
`Number.parseInt`, and is stored when `Number.isInteger` holds of the result;
otherwise a `TypeError` is thrown. -/
def SensorArray.setDelay {α : Type} (a : SensorArray α) (value : JSValue) :
    Outcome (SensorArray α) :=
  if value = .str frameSentinel then
    { state := { a with delay := .animationFrame, animationFrameDelay := true },
      error := none }
  else
    match Number.integerOf (Number.parseInt value) with
    | some i => { state := { a with delay := .ms i }, error := none }
    | none => { state := a, error := some "Invalid delay value" }

/-- One option of the constructor, `case` by `case`. -/
def SensorArray.applyOption {α : Type} (a : SensorArray α) (key : String)
    (value : JSValue) : Outcome (SensorArray α) :=
  if key = "delay" then a.setDelay value
  else if key = "accumulate" then
    { state := { a with accumulate := toBoolean value }, error := none }
  else if key = "timestamp" then
    { state := { a with timestamp := toBoolean value }, error := none }
  else { state := a, error := some "Unknown option" }

/-- The loop of the constructor over `Object.entries(opts)`, which the first
throw leaves. -/
def SensorArray.applyOptions {α : Type} (a : SensorArray α) :
    List (String × JSValue) → Outcome (SensorArray α)
  | [] => { state := a, error := none }
  | (key, value) :: rest =>
    match a.applyOption key value with
    | { state := a1, error := none } => SensorArray.applyOptions a1 rest
    | failed => failed

/-- The constructor `new SensorArray(opts)`; `none` is a falsy `opts`. -/
def SensorArray.construct (α : Type) (opts : Option (List (String × JSValue))) :
    Outcome (SensorArray α) :=
  match opts with
  | none => { state := SensorArray.new α, error := none }
  | some entries => (SensorArray.new α).applyOptions entries

/-- The test `this.#sensors.includes(sensor)`, by identity. -/
def SensorArray.includes {α : Type} (a : SensorArray α) (s : Sensor α) : Bool :=
  a.sensors.any (fun t => t.ref == s.ref)

/-- The method `add(sensor)`. -/
def SensorArray.add {α : Type} (a : SensorArray α) : Candidate α → SensorArray α
  | .sensor s =>
    if !a.includes s then
      { a with sensors := a.sensors ++ [{ s with timestamp := a.timestamp }] }
    else a
  | .other _ => a

/-- The method `remove(sensor)`. -/
def SensorArray.remove {α : Type} (a : SensorArray α) : Candidate α → SensorArray α
  | .sensor s => { a with sensors := a.sensors.filter (fun t => t.ref != s.ref) }
  | .other _ => { a with sensors := a.sensors.filter (fun _ => true) }

/-- The method `start()`. -/
def SensorArray.start {α : Type} (a : SensorArray α) : SensorArray α :=
  { a with isStreaming := true }

/-- The method `stop()`. -/
def SensorArray.stop {α : Type} (a : SensorArray α) : SensorArray α :=
  { a with isStreaming := false }

/-- The loop of the static method `from`: the local `instance` after the
candidates have been visited, with the number of `console.warn` calls. -/
def SensorArray.fromLoop {α : Type} :
    SensorArray α → Nat → List (Candidate α) → SensorArray α × Nat
  | inst, warned, [] => (inst, warned)
  | inst, warned, .sensor s :: rest => SensorArray.fromLoop (inst.add (.sensor s)) warned rest
  | inst, warned, .other _ :: rest => SensorArray.fromLoop inst (warned + 1) rest

/-- The static method `SensorArray.from(sensorArray)` (`from` is reserved in
Lean).  Its body (lines 12 to 21) builds the local `instance` and ends without
a `return` statement, so the call evaluates to `undefined`, here `none`. -/
def SensorArray.from' {α : Type} (sensorArray : List (Candidate α)) :
    Option (SensorArray α) :=
  let _instance := (SensorArray.fromLoop (SensorArray.new α) 0 sensorArray).1
  none

/-! ## The merge loop `#generateStream` -/

/-- Line 93, `extract[Object.getOwnPropertyNames(extract)[0]].$timestamp = time`:
the first own property of the contribution receives the capture time.  The
class body is strict code, so the write throws a `TypeError` when there is no
first property (the base is `undefined`) or when its value is a primitive. -/
def stampFirst {α : Type} (extract : NamedState α) (time : α) :
    Except TypeError (NamedState α) :=
  match extract with
  | [] => .error "Cannot set properties of undefined"
  | (_, .prim _) :: _ => .error "Cannot create property on a primitive"
  | (k, .obj props) :: rest => .ok ((k, .obj (JSObject.set props timestampKey time)) :: rest)

/-- Lines 90 to 94: the contribution of one polled sensor, stamped when
timestamping is on. -/
def contribution {α : Type} (timestamp : Bool) (s : Sensor α) :
    Except TypeError (NamedState α) :=
  let data := s.popData
  let extract := s.extractState data
  if timestamp then stampFirst extract data.timestamp else .ok extract

/-- Lines 90 to 95: one iteration of the `for` loop, ending with
`state = { ...state, ...extract }`. -/
def mergeOne {α : Type} (timestamp : Bool) (state : NamedState α) (s : Sensor α) :
    Except TypeError (NamedState α) :=
  match contribution timestamp s with
  | .ok extract => .ok (JSObject.assign state extract)
  | .error e => .error e

/-- Lines 89 to 96: the `for` loop over the sensors that have data. -/
def mergeAll {α : Type} (timestamp : Bool) :
    List (Sensor α) → NamedState α → Except TypeError (NamedState α)
  | [], state => .ok state
  | s :: rest, state =>
    match mergeOne timestamp state s with
    | .ok merged => mergeAll timestamp rest merged
    | .error e => .error e

/-- Lines 98 to 108: what the cycle yields from the merged mapping, with the
array after it.  `now` is the value of `Date.now()`.  In accumulate mode the
yielded value is the cumulative mapping as it stands at the `yield`. -/
def SensorArray.emit {α : Type} (a : SensorArray α) (now : α) (state : NamedState α) :
    SensorArray α × Option (NamedState α) :=
  if (JSObject.keys state).length ≠ 0 then
    let stamped := if a.timestamp then JSObject.set state timestampKey (.prim now) else state
    if a.accumulate then
      let cumulative := JSObject.assign a.state stamped
      ({ a with state := cumulative }, some cumulative)
    else (a, some stamped)
  else (a, none)

/-- Lines 86 to 108 run without interference: one merge cycle of the array. -/
def SensorArray.cycle {α : Type} (a : SensorArray α) (now : α) :
    Except TypeError (SensorArray α × Option (NamedState α)) :=
  match mergeAll a.timestamp (a.sensors.filter (fun s => s.hasData)) [] with
  | .ok state => .ok (a.emit now state)
  | .error e => .error e

/-- How the loop suspends between two cycles. -/
inductive Suspension where
  | frame
  | timer (ms : Int)
  deriving DecidableEq, Repr

/-- Lines 111 to 115: the suspension chosen after a cycle; `none` when neither
branch is taken.  For the sentinel string `this.delay >= 0` compares `NaN`
and is false. -/
def SensorArray.suspension {α : Type} (a : SensorArray α) : Option Suspension :=
  if a.animationFrameDelay then some .frame
  else
    match a.delay with
    | .ms i => if 0 ≤ i then some (.timer i) else none
    | .animationFrame => none

/-- Where one invocation of `#generateStream` stands. -/
inductive PC (α : Type) where
  | fresh
  | loopHead
  | polling (todo : List (Sensor α)) (state : NamedState α)
  | yielded
  | delaying (by_ : Suspension)
  | done
  | threw (e : TypeError)

/-- One invocation of the generator together with the array it runs on. -/
structure Gen (α : Type) where
  array : SensorArray α
  pc : PC α

/-- The place the generator goes to after a cycle: the delay of lines 111 to
115, or straight back to the loop test. -/
def SensorArray.afterCycle {α : Type} (a : SensorArray α) : PC α :=
  match a.suspension with
  | some s => .delaying s
  | none => .loopHead

/-- The end of a cycle (lines 98 to 108): a non-empty mapping is yielded and
the generator waits for the next request. -/
def Gen.finish {α : Type} (a : SensorArray α) (now : α) (state : NamedState α) :
    Gen α × Option (NamedState α) :=
  match a.emit now state with
  | (a1, some snapshot) => ({ array := a1, pc := .yielded }, some snapshot)
  | (a1, none) => ({ array := a1, pc := a1.afterCycle }, none)

/-- One step of the generator, from one point to the next, with the snapshot
it yields if any.  `fresh` is the generator before its body runs (line 84 sets
the flag); `loopHead` is the test of line 85, followed by the filter of line
89; `polling (s :: rest) state` awaits `s.popData()`; `yielded` is the
suspension at the `yield`; `delaying` awaits the timer or the frame. -/
def Gen.resume {α : Type} (now : α) (g : Gen α) : Gen α × Option (NamedState α) :=
  match g.pc with
  | .fresh => ({ array := { g.array with isStreaming := true }, pc := .loopHead }, none)
  | .loopHead =>
    if g.array.isStreaming then
      match g.array.sensors.filter (fun s => s.hasData) with
      | [] => Gen.finish g.array now []
      | s :: rest => ({ g with pc := .polling (s :: rest) [] }, none)
    else ({ g with pc := .done }, none)
  | .polling [] state => Gen.finish g.array now state
  | .polling (s :: rest) state =>
    match mergeOne g.array.timestamp state s with
    | .error e => ({ g with pc := .threw e }, none)
    | .ok merged =>
      match rest with
      | [] => Gen.finish g.array now merged
      | _ :: _ => ({ g with pc := .polling rest merged }, none)
  | .yielded => ({ g with pc := g.array.afterCycle }, none)
  | .delaying _ => ({ g with pc := .loopHead }, none)
  | .done => (g, none)
  | .threw _ => (g, none)

/-- What happens to a generator: it is resumed (the awaited promise resolves,
or the consumer requests the next snapshot), or other code runs while the
generator is suspended: it calls a method of the array, or sensors receive
readings.  `method` is the effect of that code on the array and on the sensor
records in it. -/
inductive Event (α : Type) where
  | resume (now : α)
  | call (method : SensorArray α → SensorArray α)

/-- The generator after a sequence of events, with the snapshots yielded in
order. -/
def Gen.run {α : Type} : Gen α → List (Event α) → Gen α × List (NamedState α)
  | g, [] => (g, [])
  | g, .resume now :: rest =>
    match Gen.resume now g with
    | (g1, some snapshot) =>
      let r := Gen.run g1 rest
      (r.1, snapshot :: r.2)
    | (g1, none) => Gen.run g1 rest
  | g, .call method :: rest => Gen.run { g with array := method g.array } rest

/-- Where a generator at the loop test stands after one cycle run without
interference, and what it has yielded, in terms of `SensorArray.cycle`. -/
def SensorArray.cycleOutcome {α : Type} (a : SensorArray α) (now : α) :
    Gen α × List (NamedState α) :=
  match a.cycle now with
  | .ok (a1, some snapshot) => ({ array := a1, pc := .yielded }, [snapshot])
  | .ok (a1, none) => ({ array := a1, pc := a1.afterCycle }, [])
  | .error e => ({ array := a, pc := .threw e }, [])

/-- The getter `get stream()`: a new generator, whose body has not started. -/
def SensorArray.stream {α : Type} (a : SensorArray α) : Gen α :=
  { array := a, pc := .fresh }

/-- The array after a sequence of assignments to `delay`, failed ones
included. -/
def SensorArray.assignDelays {α : Type} (a : SensorArray α) :
    List JSValue → SensorArray α
  | [] => a
  | value :: rest => SensorArray.assignDelays (a.setDelay value).state rest

/-- A call of `add` or of `remove`. -/
inductive Registration (α : Type) where
  | add (c : Candidate α)
  | remove (c : Candidate α)

/-- The array after one call of `add` or `remove`. -/
def SensorArray.register {α : Type} (a : SensorArray α) : Registration α → SensorArray α
  | .add c => a.add c
  | .remove c => a.remove c

/-- The array after a sequence of calls of `add` and `remove`. -/
def SensorArray.registerAll {α : Type} (a : SensorArray α) :
    List (Registration α) → SensorArray α
  | [] => a
  | op :: rest => SensorArray.registerAll (a.register op) rest

/-- The identities of the registered sensors, in registration order. -/
def SensorArray.refs {α : Type} (a : SensorArray α) : List Nat :=
  a.sensors.map (fun s => s.ref)

/-- The phases of a run in which the generator is resumed. -/
def Event.isResume {α : Type} : Event α → Bool
  | .resume _ => true
  | .call _ => false

/-- The number of steps a started generator still takes, at most, once the
streaming flag is cleared and stays so. -/
def PC.remaining {α : Type} : PC α → Nat
  | .fresh => 0
  | .loopHead => 1
  | .polling todo _ => todo.length + 4
  | .yielded => 3
  | .delaying _ => 2
  | .done => 0
  | .threw _ => 0

/-- The number of snapshots a started generator can still yield once the
streaming flag is cleared and stays so: one while a cycle is in progress. -/
def PC.pending {α : Type} : PC α → Nat
  | .polling _ _ => 1
  | _ => 0

/-- The generator has returned or thrown: the sequence has ended. -/
def PC.ended {α : Type} : PC α → Bool
  | .done => true
  | .threw _ => true
  | _ => false

/-! ## Example sensors and arrays -/

/-- A sensor with identity `ref` whose sample was captured at `time` and whose
contribution has the given keys, each holding the object `{ value: tag }`. -/
def exampleSensor (ref : Nat) (hasData : Bool) (time : Nat) (keys : List String)
    (tag : Nat) : Sensor Nat :=
  { ref := ref, timestamp := false, hasData := hasData,
    popData := { timestamp := time, payload := [] },
    extractState := fun _ => keys.map (fun k => (k, Field.obj [("value", tag)])) }

/-- The array of `new SensorArray({ timestamp: false })`. -/
def plainArray : SensorArray Nat :=
  (SensorArray.construct Nat (some [("timestamp", .bool false)])).state

/-- Two sensors with data that both contribute the key `k`. -/
def pairArray : SensorArray Nat :=
  (plainArray.add (.sensor (exampleSensor 1 true 10 ["k"] 1))).add
    (.sensor (exampleSensor 2 true 20 ["k"] 2))

/-- Three sensors with data that all contribute the key `k`. -/
def tripleArray : SensorArray Nat :=
  pairArray.add (.sensor (exampleSensor 3 true 30 ["k"] 3))

/-- The default array with two sensors: the first has no data, the second has
data and contributes the key `b`. -/
def idleAndBusy : SensorArray Nat :=
  ((SensorArray.new Nat).add (.sensor (exampleSensor 1 false 10 ["a"] 1))).add
    (.sensor (exampleSensor 2 true 20 ["b"] 2))

/-- The default array with one sensor that has data and contributes the two
keys `x` and `y`. -/
def twoFields : SensorArray Nat :=
  (SensorArray.new Nat).add (.sensor (exampleSensor 1 true 10 ["x", "y"] 1))

/-- The array of `new SensorArray({ accumulate: true, timestamp: false })` with
two sensors, of which the first has data and contributes the key `a`. -/
def accumulating : SensorArray Nat :=
  (((SensorArray.construct Nat
      (some [("accumulate", .bool true), ("timestamp", .bool false)])).state.add
    (.sensor (exampleSensor 1 true 10 ["a"] 1))).add
    (.sensor (exampleSensor 2 false 20 ["b"] 2)))

/-- The array `accumulating` after its first cycle. -/
def accumulated : SensorArray Nat :=
  { accumulating with state := [("a", Field.obj [("value", 1)])] }

/-- The default array after `delay = 'requestAnimationFrame'` and then
`delay = 100`. -/
def frameThenTimer : Outcome (SensorArray Nat) :=
  ((SensorArray.new Nat).setDelay (.str frameSentinel)).state.setDelay (.int 100)

/-- Nine resumptions of a generator. -/
def nineResumes : List (Event Nat) :=
  [.resume 1, .resume 2, .resume 3, .resume 4, .resume 5, .resume 6, .resume 7,
    .resume 8, .resume 9]

/-- The array of `new SensorArray({ accumulate: true, timestamp: false })` with
three sensors: the first two have data and both contribute the key `k`, the
third has none. -/
def overridden : SensorArray Nat :=
  ((((SensorArray.construct Nat
      (some [("accumulate", .bool true), ("timestamp", .bool false)])).state.add
    (.sensor (exampleSensor 1 true 10 ["k"] 1))).add
    (.sensor (exampleSensor 2 true 20 ["k"] 2))).add
    (.sensor (exampleSensor 3 false 30 ["j"] 3)))

/-- The array `overridden` after its first cycle, at a moment when only the
third sensor has data. -/
def overriddenLater : SensorArray Nat :=
  { overridden with
    state := [("k", Field.obj [("value", 2)])],
    sensors := [exampleSensor 1 false 10 ["k"] 1, exampleSensor 2 false 20 ["k"] 2,
      exampleSensor 3 true 30 ["j"] 3] }

/-! ## Properties of objects -/

section Objects

variable {β : Type}

theorem JSObject.get_set (o : JSObject β) (k k' : String) (v : β) :
    JSObject.get (JSObject.set o k v) k' = if k = k' then some v else JSObject.get o k' := by
  induction o with
  | nil => simp [JSObject.set, JSObject.get]
  | cons hd tl ih =>
    obtain ⟨k0, v0⟩ := hd
    by_cases h0 : k0 = k
    · subst h0
      by_cases h1 : k0 = k' <;> simp [JSObject.set, JSObject.get, h1]
    · by_cases h1 : k0 = k'
      · subst h1
        have h2 : ¬ k = k0 := fun h => h0 h.symm
        simp [JSObject.set, JSObject.get, h0, h2]
      · simp [JSObject.set, JSObject.get, h0, h1, ih]

theorem JSObject.get_eq_none_iff (o : JSObject β) (k : String) :
    JSObject.get o k = none ↔ k ∉ JSObject.keys o := by
  induction o with
  | nil => simp [JSObject.get, JSObject.keys]
  | cons hd tl ih =>
    obtain ⟨k0, v0⟩ := hd
    by_cases h0 : k0 = k
    · simp [JSObject.get, JSObject.keys, h0]
    · have h1 : ¬ k = k0 := fun h => h0 h.symm
      simpa [JSObject.get, JSObject.keys, h0, h1] using ih

theorem JSObject.mem_keys_set (o : JSObject β) (k k' : String) (v : β) :
    k' ∈ JSObject.keys (JSObject.set o k v) ↔ k' = k ∨ k' ∈ JSObject.keys o := by
  induction o with
  | nil => simp [JSObject.set, JSObject.keys]
  | cons hd tl ih =>
    obtain ⟨k0, v0⟩ := hd
    by_cases h0 : k0 = k
    · subst h0
      simp [JSObject.set, JSObject.keys]
    · have ih1 : k' ∈ List.map Prod.fst (JSObject.set tl k v) ↔
          k' = k ∨ k' ∈ List.map Prod.fst tl := ih
      simp only [JSObject.set, JSObject.keys, h0, if_false, List.map_cons, List.mem_cons, ih1]
      tauto

theorem JSObject.wf_set (o : JSObject β) (k : String) (v : β) (h : JSObject.WF o) :
    JSObject.WF (JSObject.set o k v) := by
  induction o with
  | nil => simp [JSObject.set, JSObject.WF, JSObject.keys]
  | cons hd tl ih =>
    obtain ⟨k0, v0⟩ := hd
    have hcons : k0 ∉ JSObject.keys tl ∧ JSObject.WF tl := by
      simpa [JSObject.WF, JSObject.keys] using h
    by_cases h0 : k0 = k
    · subst h0
      simpa [JSObject.set, JSObject.WF, JSObject.keys] using h
    · have hnot : k0 ∉ JSObject.keys (JSObject.set tl k v) := by
        rw [JSObject.mem_keys_set]
        rintro (h1 | h1)
        · exact h0 h1
        · exact hcons.1 h1
      have htl : JSObject.WF (JSObject.set tl k v) := ih hcons.2
      simp only [JSObject.set, h0, if_false, JSObject.WF, JSObject.keys, List.map_cons,
        List.nodup_cons]
      exact ⟨hnot, htl⟩

theorem JSObject.get_assign_of_not_mem (target source : JSObject β) (k : String)
    (h : k ∉ JSObject.keys source) :
    JSObject.get (JSObject.assign target source) k = JSObject.get target k := by
  induction source generalizing target with
  | nil => simp [JSObject.assign]
  | cons hd tl ih =>
    obtain ⟨k0, v0⟩ := hd
    have h0 : ¬ k0 = k ∧ k ∉ JSObject.keys tl := by
      constructor
      · intro h1; apply h; simp [JSObject.keys, h1]
      · intro h1; apply h; simp only [JSObject.keys, List.map_cons, List.mem_cons]; exact Or.inr h1
    have step : JSObject.assign target ((k0, v0) :: tl) =
        JSObject.assign (JSObject.set target k0 v0) tl := by
      simp [JSObject.assign]
    rw [step, ih _ h0.2, JSObject.get_set]
    simp [h0.1]

theorem JSObject.get_assign_of_get (target source : JSObject β) (k : String) (v : β)
    (hwf : JSObject.WF source) (h : JSObject.get source k = some v) :
    JSObject.get (JSObject.assign target source) k = some v := by
  induction source generalizing target with
  | nil => simp [JSObject.get] at h
  | cons hd tl ih =>
    obtain ⟨k0, v0⟩ := hd
    have hcons : k0 ∉ JSObject.keys tl ∧ JSObject.WF tl := by
      simpa [JSObject.WF, JSObject.keys] using hwf
    have step : JSObject.assign target ((k0, v0) :: tl) =
        JSObject.assign (JSObject.set target k0 v0) tl := by
      simp [JSObject.assign]
    rw [step]
    by_cases h0 : k0 = k
    · subst h0
      have hv : v0 = v := by simpa [JSObject.get] using h
      rw [JSObject.get_assign_of_not_mem _ _ _ hcons.1, JSObject.get_set]
      simp [hv]
    · have h1 : JSObject.get tl k = some v := by simpa [JSObject.get, h0] using h
      exact ih _ hcons.2 h1

theorem JSObject.mem_keys_assign (target source : JSObject β) (k : String) :
    k ∈ JSObject.keys (JSObject.assign target source) ↔
      k ∈ JSObject.keys target ∨ k ∈ JSObject.keys source := by
  induction source generalizing target with
  | nil => simp [JSObject.assign, JSObject.keys]
  | cons hd tl ih =>
    obtain ⟨k0, v0⟩ := hd
    have step : JSObject.assign target ((k0, v0) :: tl) =
        JSObject.assign (JSObject.set target k0 v0) tl := by
      simp [JSObject.assign]
    rw [step, ih, JSObject.mem_keys_set]
    simp only [JSObject.keys, List.map_cons, List.mem_cons]
    tauto

theorem JSObject.wf_assign (target source : JSObject β) (h : JSObject.WF target) :
    JSObject.WF (JSObject.assign target source) := by
  induction source generalizing target with
  | nil => simpa [JSObject.assign] using h
  | cons hd tl ih =>
    obtain ⟨k0, v0⟩ := hd
    have step : JSObject.assign target ((k0, v0) :: tl) =
        JSObject.assign (JSObject.set target k0 v0) tl := by
      simp [JSObject.assign]
    rw [step]
    exact ih _ (JSObject.wf_set _ _ _ h)

theorem JSObject.set_of_not_mem (o : JSObject β) (k : String) (v : β)
    (h : k ∉ JSObject.keys o) : JSObject.set o k v = o ++ [(k, v)] := by
  induction o with
  | nil => rfl
  | cons hd tl ih =>
    obtain ⟨k0, v0⟩ := hd
    have h0 : ¬ k0 = k ∧ k ∉ JSObject.keys tl := by
      constructor
      · intro h1; apply h; simp [JSObject.keys, h1]
      · intro h1; apply h; simp only [JSObject.keys, List.map_cons, List.mem_cons]; exact Or.inr h1
    simp [JSObject.set, h0.1, ih h0.2]

theorem JSObject.assign_of_disjoint (target source : JSObject β)
    (hwf : JSObject.WF source)
    (hdis : ∀ k ∈ JSObject.keys source, k ∉ JSObject.keys target) :
    JSObject.assign target source = target ++ source := by
  induction source generalizing target with
  | nil => simp [JSObject.assign]
  | cons hd tl ih =>
    obtain ⟨k0, v0⟩ := hd
    have hcons : k0 ∉ JSObject.keys tl ∧ JSObject.WF tl := by
      simpa [JSObject.WF, JSObject.keys] using hwf
    have h0 : k0 ∉ JSObject.keys target := hdis k0 (by simp [JSObject.keys])
    have step : JSObject.assign target ((k0, v0) :: tl) =
        JSObject.assign (JSObject.set target k0 v0) tl := by
      simp [JSObject.assign]
    rw [step, JSObject.set_of_not_mem _ _ _ h0, ih _ hcons.2]
    · simp
    · intro k hk hmem
      have hk1 : k ∈ JSObject.keys target ∨ k = k0 := by
        simpa [JSObject.keys] using hmem
      rcases hk1 with h1 | h1
      · exact hdis k (by simp only [JSObject.keys, List.map_cons, List.mem_cons]; exact Or.inr hk) h1
      · exact hcons.1 (h1 ▸ hk)

theorem JSObject.assign_nil (source : JSObject β) (hwf : JSObject.WF source) :
    JSObject.assign [] source = source := by
  rw [JSObject.assign_of_disjoint [] source hwf (by simp [JSObject.keys])]
  rfl

end Objects

/-! ## Properties of `Number.parseInt` -/

section ParseInt

theorem digitChar_toNat (d : Nat) (h : d < 10) : (digitChar d).toNat = 48 + d := by
  interval_cases d <;> rfl

theorem digitValue_digitChar (d : Nat) (h : d < 10) :
    digitValue 10 (digitChar d) = some d := by
  unfold digitValue
  simp only [digitChar_toNat d h]
  have h1 : 48 ≤ 48 + d ∧ 48 + d ≤ 57 := ⟨by omega, by omega⟩
  simp [h1]

theorem isStrWhiteSpaceChar_digitChar (d : Nat) (h : d < 10) :
    isStrWhiteSpaceChar (digitChar d) = false := by
  interval_cases d <;> rfl

theorem readDigits_digits (ds : List Nat) (acc count : Nat) (h : ∀ d ∈ ds, d < 10) :
    readDigits 10 (ds.map digitChar) acc count =
      (ds.foldl (fun a d => a * 10 + d) acc, count + ds.length) := by
  induction ds generalizing acc count with
  | nil => simp [readDigits]
  | cons d rest ih =>
    have hd : d < 10 := h d (List.mem_cons_self _ _)
    simp only [List.map_cons, readDigits, digitValue_digitChar d hd, List.foldl_cons,
      List.length_cons]
    rw [ih _ _ (fun e he => h e (List.mem_cons_of_mem _ he))]
    simp only [Prod.mk.injEq, true_and]
    omega

/-- What `digitsAux` computes when the fuel suffices. -/
theorem digitsAux_spec (fuel n : Nat) (acc : List Nat) (h : n < fuel) :
    ∃ ds : List Nat, digitsAux fuel n acc = ds ++ acc ∧
      ds.foldl (fun a d => a * 10 + d) 0 = n ∧ (∀ d ∈ ds, d < 10) ∧
      (∃ d0 rest, ds = d0 :: rest ∧ (0 < n → 0 < d0)) ∧
      (∀ m, 0 < m → n < 10 ^ m → ds.length ≤ m) := by
  induction fuel generalizing n acc with
  | zero => omega
  | succ fuel ih =>
    unfold digitsAux
    by_cases hn : n < 10
    · refine ⟨[n], by simp [hn], by simp, by simpa using hn, ⟨n, [], rfl, fun h0 => h0⟩, ?_⟩
      intro m hm _
      simpa using hm
    · have hlt : n / 10 < fuel := by omega
      obtain ⟨ds, h1, h2, h3, ⟨d0, rest, h4, h5⟩, h6⟩ := ih (n / 10) (n % 10 :: acc) hlt
      refine ⟨ds ++ [n % 10], by simp [hn, h1], ?_, ?_, ⟨d0, rest ++ [n % 10], by simp [h4], ?_⟩, ?_⟩
      · rw [List.foldl_append, h2]
        simp only [List.foldl_cons, List.foldl_nil]
        omega
      · intro d hd
        rcases List.mem_append.mp hd with h7 | h7
        · exact h3 d h7
        · have : d = n % 10 := by simpa using h7
          omega
      · intro _
        exact h5 (by omega)
      · intro m hm hpow
        cases m with
        | zero => omega
        | succ m =>
          have hm1 : 0 < m := by
            rcases Nat.eq_zero_or_pos m with h0 | h0
            · subst h0; simp at hpow; omega
            · exact h0
          have hdiv : n / 10 < 10 ^ m := by
            rw [Nat.div_lt_iff_lt_mul (by norm_num)]
            rw [pow_succ] at hpow
            exact hpow
          have := h6 m hm1 hdiv
          simp only [List.length_append, List.length_cons, List.length_nil]
          omega

theorem decimalDigits_spec (n : Nat) :
    (decimalDigits n).foldl (fun a d => a * 10 + d) 0 = n ∧
      (∀ d ∈ decimalDigits n, d < 10) ∧
      (∃ d0 rest, decimalDigits n = d0 :: rest ∧ (0 < n → 0 < d0)) ∧
      (∀ m, 0 < m → n < 10 ^ m → (decimalDigits n).length ≤ m) := by
  obtain ⟨ds, h1, h2⟩ := digitsAux_spec (n + 1) n [] (by omega)
  have h3 : decimalDigits n = ds := by simpa [decimalDigits] using h1
  rw [h3]
  exact h2

theorem stripTrailingZeros_append (ds : List Nat) :
    stripTrailingZeros ds ++
      List.replicate (ds.length - (stripTrailingZeros ds).length) 0 = ds := by
  have hsplit := List.takeWhile_append_dropWhile (fun d => d == 0) ds.reverse
  have hzero : ∀ l : List Nat, l.takeWhile (fun d => d == 0) =
      List.replicate (l.takeWhile (fun d => d == 0)).length 0 := by
    intro l
    rw [List.eq_replicate_iff]
    refine ⟨rfl, ?_⟩
    intro b hb
    have := List.mem_takeWhile_imp hb
    simpa using this
  have hlen : ds.length =
      (ds.reverse.takeWhile (fun d => d == 0)).length +
        (ds.reverse.dropWhile (fun d => d == 0)).length := by
    have := congrArg List.length hsplit
    rw [List.length_append, List.length_reverse] at this
    exact this.symm
  have hrev : ds = (ds.reverse.dropWhile (fun d => d == 0)).reverse ++
      (ds.reverse.takeWhile (fun d => d == 0)).reverse := by
    have := congrArg List.reverse hsplit
    rw [List.reverse_append, List.reverse_reverse] at this
    exact this.symm
  unfold stripTrailingZeros
  rw [List.length_reverse]
  have hk : ds.length - (ds.reverse.dropWhile (fun d => d == 0)).length =
      (ds.reverse.takeWhile (fun d => d == 0)).length := by omega
  rw [hk]
  conv_rhs => rw [hrev]
  congr 1
  rw [hzero ds.reverse]
  simp

/-- The parse of a string that starts with a character other than white
space, a sign and the digit zero. -/
theorem parseIntChars_plain (c0 : Char) (tl : List Char) (v len : Nat)
    (hws : isStrWhiteSpaceChar c0 = false) (hminus : c0 ≠ '-') (hplus : c0 ≠ '+')
    (hzero : c0 ≠ '0') (hread : readDigits 10 (c0 :: tl) 0 0 = (v, len))
    (hlen : len ≠ 0) (hv : v < overflowBound) :
    parseIntChars (c0 :: tl) = .int v := by
  unfold parseIntChars
  have h1 : List.dropWhile isStrWhiteSpaceChar (c0 :: tl) = c0 :: tl := by
    simp [List.dropWhile, hws]
  simp only [h1, List.head?_cons]
  have h2 : (some c0 == some '-') = false := by simpa using hminus
  have h3 : (some c0 == some '+') = false := by simpa using hplus
  have h4 : (some c0 == some '0') = false := by simpa using hzero
  simp only [h2, h3, h4, Bool.or_self, Bool.false_eq_true, if_false, Bool.false_and, hread]
  simp [hzero, hread, hlen, Nat.not_le.mpr hv]

theorem digitChar_ne (d : Nat) (h : d < 10) (hpos : 0 < d) :
    digitChar d ≠ '-' ∧ digitChar d ≠ '+' ∧ digitChar d ≠ '0' := by
  interval_cases d <;> decide

theorem positiveToString_integer (all : List Nat) (h : all.length ≤ 21) :
    positiveToString (stripTrailingZeros all) all.length = all.map digitChar := by
  have hle : (stripTrailingZeros all).length ≤ all.length := by
    have := congrArg List.length (stripTrailingZeros_append all)
    rw [List.length_append] at this
    omega
  unfold positiveToString
  have hcond : ((stripTrailingZeros all).length : Int) ≤ (all.length : Int) ∧
      (all.length : Int) ≤ 21 := ⟨by exact_mod_cast hle, by exact_mod_cast h⟩
  simp only [hcond, and_self, if_true]
  have hk : ((all.length : Int) - ((stripTrailingZeros all).length : Int)).toNat =
      all.length - (stripTrailingZeros all).length := Int.toNat_sub _ _
  rw [hk]
  have hzero : List.replicate (all.length - (stripTrailingZeros all).length) '0' =
      (List.replicate (all.length - (stripTrailingZeros all).length) 0).map digitChar := by
    rw [List.map_replicate]
    rfl
  rw [hzero, ← List.map_append, stripTrailingZeros_append]

theorem overflowBound_large : 10 ^ 21 ≤ overflowBound := by
  norm_num [overflowBound]

/-- A non-negative integer below `10^21` prints as its decimal digits, and
`Number.parseInt` reads it back. -/
theorem parseInt_nat (n : Nat) (h : n < 10 ^ 21) :
    Number.parseInt (.int (n : Int)) = .int (n : Int) := by
  rcases Nat.eq_zero_or_pos n with h0 | hpos
  · subst h0
    decide
  · obtain ⟨hval, hdig, ⟨d0, rest, hds, hd0⟩, hlen⟩ := decimalDigits_spec n
    have hlen21 : (decimalDigits n).length ≤ 21 := hlen 21 (by norm_num) h
    have hstr : toJSString (.int (n : Int)) = (decimalDigits n).map digitChar := by
      have hne : ¬ ((n : Int) = 0) := by exact_mod_cast (Nat.pos_iff_ne_zero.mp hpos)
      have hnn : ¬ ((n : Int) < 0) := by exact_mod_cast (Nat.not_lt_zero n)
      simp only [toJSString, hne, hnn, if_false, Int.natAbs_ofNat, List.nil_append]
      exact positiveToString_integer _ hlen21
    unfold Number.parseInt
    rw [hstr]
    have hd0lt : d0 < 10 := hdig d0 (by rw [hds]; exact List.mem_cons_self _ _)
    obtain ⟨f1, f2, f3⟩ := digitChar_ne d0 hd0lt (hd0 hpos)
    have hread := readDigits_digits (decimalDigits n) 0 0 hdig
    rw [hval] at hread
    have hcons : (decimalDigits n).map digitChar = digitChar d0 :: rest.map digitChar := by
      rw [hds]
      rfl
    rw [hcons] at hread ⊢
    have hres := parseIntChars_plain (digitChar d0) (rest.map digitChar) n
      (0 + (decimalDigits n).length) (isStrWhiteSpaceChar_digitChar d0 hd0lt) f1 f2 f3 hread
      (by rw [hds]; simp) (lt_of_lt_of_le h overflowBound_large)
    exact hres

/-- A string that starts with a character other than white space, a sign and
a decimal digit has no integer prefix. -/
theorem parseIntChars_no_digit (c0 : Char) (tl : List Char)
    (hws : isStrWhiteSpaceChar c0 = false) (hminus : c0 ≠ '-') (hplus : c0 ≠ '+')
    (hdigit : digitValue 10 c0 = none) :
    parseIntChars (c0 :: tl) = .nan := by
  have hzero : c0 ≠ '0' := by
    intro h
    rw [h] at hdigit
    exact absurd hdigit (by decide)
  unfold parseIntChars
  have h1 : List.dropWhile isStrWhiteSpaceChar (c0 :: tl) = c0 :: tl := by
    simp [List.dropWhile, hws]
  simp only [h1, List.head?_cons]
  have h2 : (some c0 == some '-') = false := by simpa using hminus
  have h3 : (some c0 == some '+') = false := by simpa using hplus
  have h4 : (some c0 == some '0') = false := by simpa using hzero
  simp only [h2, h3, h4, Bool.or_self, Bool.false_eq_true, if_false, Bool.false_and]
  simp [hzero, readDigits, hdigit]

theorem integerOf_eq_none (v : JSValue) (h : Number.isInteger v = false) :
    Number.integerOf v = none := by
  cases v <;> simp_all [Number.isInteger, Number.integerOf]

end ParseInt

/-! ## Properties of one merge cycle -/

section Cycle

variable {α : Type}

theorem stampFirst_keys (extract c : NamedState α) (t : α)
    (h : stampFirst extract t = .ok c) : JSObject.keys c = JSObject.keys extract := by
  unfold stampFirst at h
  split at h
  · cases h
  · cases h
  · cases h
    simp [JSObject.keys]

theorem contribution_keys (timestamp : Bool) (s : Sensor α) (c : NamedState α)
    (h : contribution timestamp s = .ok c) :
    JSObject.keys c = JSObject.keys (s.extractState s.popData) := by
  unfold contribution at h
  cases timestamp with
  | true => exact stampFirst_keys _ _ _ (by simpa using h)
  | false =>
    simp only [Bool.false_eq_true, if_false] at h
    cases h
    rfl

theorem mergeOne_eq_ok (timestamp : Bool) (state : NamedState α) (s : Sensor α)
    (c : NamedState α) (h : contribution timestamp s = .ok c) :
    mergeOne timestamp state s = .ok (JSObject.assign state c) := by
  simp [mergeOne, h]

theorem mergeOne_ok_inv (timestamp : Bool) (state merged : NamedState α) (s : Sensor α)
    (h : mergeOne timestamp state s = .ok merged) :
    ∃ c, contribution timestamp s = .ok c ∧ merged = JSObject.assign state c := by
  unfold mergeOne at h
  cases hc : contribution timestamp s with
  | error e => rw [hc] at h; cases h
  | ok c =>
    rw [hc] at h
    cases h
    exact ⟨c, rfl, rfl⟩

theorem mergeAll_append (timestamp : Bool) (l1 l2 : List (Sensor α))
    (state mid : NamedState α) (h : mergeAll timestamp l1 state = .ok mid) :
    mergeAll timestamp (l1 ++ l2) state = mergeAll timestamp l2 mid := by
  induction l1 generalizing state with
  | nil =>
    simp only [mergeAll] at h
    cases h
    rfl
  | cons s rest ih =>
    simp only [List.cons_append, mergeAll] at h ⊢
    cases hm : mergeOne timestamp state s with
    | error e => rw [hm] at h; cases h
    | ok merged =>
      rw [hm] at h
      exact ih merged h

theorem mergeAll_ok (timestamp : Bool) (l : List (Sensor α)) (state : NamedState α)
    (h : ∀ s ∈ l, ∃ c, contribution timestamp s = .ok c) :
    ∃ merged, mergeAll timestamp l state = .ok merged := by
  induction l generalizing state with
  | nil => exact ⟨state, rfl⟩
  | cons s rest ih =>
    obtain ⟨c, hc⟩ := h s (List.mem_cons_self _ _)
    simp only [mergeAll, mergeOne_eq_ok timestamp state s c hc]
    exact ih _ (fun t ht => h t (List.mem_cons_of_mem _ ht))

theorem mergeAll_get_of_not_mem (timestamp : Bool) (l : List (Sensor α))
    (state merged : NamedState α) (k : String)
    (h : mergeAll timestamp l state = .ok merged)
    (hk : ∀ s ∈ l, k ∉ JSObject.keys (s.extractState s.popData)) :
    JSObject.get merged k = JSObject.get state k := by
  induction l generalizing state with
  | nil =>
    simp only [mergeAll] at h
    cases h
    rfl
  | cons s rest ih =>
    simp only [mergeAll] at h
    cases hm : mergeOne timestamp state s with
    | error e => rw [hm] at h; cases h
    | ok mid =>
      rw [hm] at h
      obtain ⟨c, hc, hmid⟩ := mergeOne_ok_inv _ _ _ _ hm
      rw [ih mid h (fun t ht => hk t (List.mem_cons_of_mem _ ht)), hmid]
      apply JSObject.get_assign_of_not_mem
      rw [contribution_keys _ _ _ hc]
      exact hk s (List.mem_cons_self _ _)

theorem mergeAll_mem_keys (timestamp : Bool) (l : List (Sensor α))
    (state merged : NamedState α) (k : String)
    (h : mergeAll timestamp l state = .ok merged) (hk : k ∈ JSObject.keys merged) :
    k ∈ JSObject.keys state ∨ ∃ s ∈ l, k ∈ JSObject.keys (s.extractState s.popData) := by
  induction l generalizing state with
  | nil =>
    simp only [mergeAll] at h
    cases h
    exact Or.inl hk
  | cons s rest ih =>
    simp only [mergeAll] at h
    cases hm : mergeOne timestamp state s with
    | error e => rw [hm] at h; cases h
    | ok mid =>
      rw [hm] at h
      obtain ⟨c, hc, hmid⟩ := mergeOne_ok_inv _ _ _ _ hm
      rcases ih mid h with h1 | ⟨t, ht, h1⟩
      · rw [hmid, JSObject.mem_keys_assign, contribution_keys _ _ _ hc] at h1
        rcases h1 with h2 | h2
        · exact Or.inl h2
        · exact Or.inr ⟨s, List.mem_cons_self _ _, h2⟩
      · exact Or.inr ⟨t, List.mem_cons_of_mem _ ht, h1⟩

theorem mergeAll_wf (timestamp : Bool) (l : List (Sensor α)) (state merged : NamedState α)
    (h : mergeAll timestamp l state = .ok merged) (hwf : JSObject.WF state) :
    JSObject.WF merged := by
  induction l generalizing state with
  | nil =>
    simp only [mergeAll] at h
    cases h
    exact hwf
  | cons s rest ih =>
    simp only [mergeAll] at h
    cases hm : mergeOne timestamp state s with
    | error e => rw [hm] at h; cases h
    | ok mid =>
      rw [hm] at h
      obtain ⟨c, _, hmid⟩ := mergeOne_ok_inv _ _ _ _ hm
      exact ih mid h (hmid ▸ JSObject.wf_assign _ _ hwf)

theorem JSObject.keys_ne_nil_of_get {β : Type} (o : JSObject β) (k : String) (v : β)
    (h : JSObject.get o k = some v) : (JSObject.keys o).length ≠ 0 := by
  cases o with
  | nil => simp [JSObject.get] at h
  | cons hd tl => simp [JSObject.keys]

/-- What `emit` yields of a key of the merged mapping other than the
top-level time key. -/
theorem emit_get (a : SensorArray α) (now : α) (state : NamedState α) (k : String)
    (v : Field α) (hwf : JSObject.WF state) (hv : JSObject.get state k = some v)
    (hkey : a.timestamp = true → k ≠ timestampKey) :
    ∃ a1 snapshot, a.emit now state = (a1, some snapshot) ∧
      JSObject.get snapshot k = some v := by
  have hne := JSObject.keys_ne_nil_of_get state k v hv
  have hst : JSObject.get
      (if a.timestamp then JSObject.set state timestampKey (.prim now) else state) k
        = some v := by
    by_cases hts : a.timestamp = true
    · have hk : ¬ timestampKey = k := fun h => hkey hts h.symm
      simp [hts, JSObject.get_set, hk, hv]
    · simp [hts, hv]
  have hwf1 : JSObject.WF
      (if a.timestamp then JSObject.set state timestampKey (.prim now) else state) := by
    by_cases hts : a.timestamp = true
    · simpa [hts] using JSObject.wf_set _ _ _ hwf
    · simpa [hts] using hwf
  unfold SensorArray.emit
  by_cases hacc : a.accumulate = true
  · simp only [hne, ne_eq, not_false_eq_true, if_true, hacc]
    exact ⟨_, _, rfl, JSObject.get_assign_of_get _ _ _ _ hwf1 hst⟩
  · simp only [hne, ne_eq, not_false_eq_true, if_true, hacc, Bool.false_eq_true, if_false]
    exact ⟨_, _, rfl, hst⟩

theorem filter_hasData_split (before after : List (Sensor α)) (B : Sensor α)
    (hdata : B.hasData = true) :
    (before ++ B :: after).filter (fun s => s.hasData) =
      before.filter (fun s => s.hasData) ++ B :: after.filter (fun s => s.hasData) := by
  simp [List.filter_append, List.filter_cons, hdata]

/-- The merged mapping of a cycle holds, under a key of the contribution of
`B`, the value of `B`, when no sensor polled after `B` contributes that key. -/
theorem mergeAll_get_last (timestamp : Bool) (pre post : List (Sensor α)) (B : Sensor α)
    (cB : NamedState α) (k : String) (v : Field α)
    (hpre : ∀ s ∈ pre, ∃ c, contribution timestamp s = .ok c)
    (hpost : ∀ s ∈ post, ∃ c, contribution timestamp s = .ok c)
    (hB : contribution timestamp B = .ok cB) (hwf : JSObject.WF cB)
    (hv : JSObject.get cB k = some v)
    (hlast : ∀ s ∈ post, k ∉ JSObject.keys (s.extractState s.popData)) :
    ∃ merged, mergeAll timestamp (pre ++ B :: post) [] = .ok merged ∧
      JSObject.WF merged ∧ JSObject.get merged k = some v := by
  obtain ⟨m1, h1⟩ := mergeAll_ok timestamp pre [] hpre
  obtain ⟨m3, h3⟩ := mergeAll_ok timestamp post (JSObject.assign m1 cB) hpost
  have hall : mergeAll timestamp (pre ++ B :: post) [] = .ok m3 := by
    rw [mergeAll_append timestamp pre (B :: post) [] m1 h1]
    simp only [mergeAll, mergeOne_eq_ok timestamp m1 B cB hB]
    exact h3
  refine ⟨m3, hall, ?_, ?_⟩
  · exact mergeAll_wf _ _ _ _ hall (by simp [JSObject.WF, JSObject.keys])
  · rw [mergeAll_get_of_not_mem timestamp post _ m3 k h3 hlast]
    exact JSObject.get_assign_of_get _ _ _ _ hwf hv

/-- A cycle in which `B` alone has data merges the contribution of `B` into
the empty mapping. -/
theorem cycle_single (a : SensorArray α) (now : α) (B : Sensor α) (cB : NamedState α)
    (honly : a.sensors.filter (fun s => s.hasData) = [B])
    (hB : contribution a.timestamp B = .ok cB) :
    a.cycle now = .ok (a.emit now (JSObject.assign [] cB)) := by
  unfold SensorArray.cycle
  rw [honly]
  simp [mergeAll, mergeOne_eq_ok a.timestamp [] B cB hB]

theorem keys_assign_nil_ne (c : NamedState α) (hne : c ≠ []) :
    (JSObject.keys (JSObject.assign [] c)).length ≠ 0 := by
  cases c with
  | nil => exact absurd rfl hne
  | cons hd tl =>
    have hmem : hd.1 ∈ JSObject.keys (JSObject.assign [] (hd :: tl)) := by
      rw [JSObject.mem_keys_assign]
      right
      simp [JSObject.keys]
    intro h0
    rw [List.length_eq_zero] at h0
    rw [h0] at hmem
    simp at hmem

theorem mergeAll_ok_inv (timestamp : Bool) (l : List (Sensor α))
    (state merged : NamedState α) (h : mergeAll timestamp l state = .ok merged) :
    ∀ s ∈ l, ∃ c, contribution timestamp s = .ok c := by
  induction l generalizing state with
  | nil => intro s hs; cases hs
  | cons t rest ih =>
    simp only [mergeAll] at h
    cases hm : mergeOne timestamp state t with
    | error e => rw [hm] at h; cases h
    | ok mid =>
      rw [hm] at h
      obtain ⟨c, hc, _⟩ := mergeOne_ok_inv _ _ _ _ hm
      intro s hs
      rcases List.mem_cons.mp hs with h1 | h1
      · exact ⟨c, h1 ▸ hc⟩
      · exact ih mid h s h1

/-- What a yielding cycle in accumulate mode leaves and yields. -/
theorem emit_accumulate_inv (a a1 : SensorArray α) (now : α)
    (state snapshot : NamedState α) (hacc : a.accumulate = true)
    (h : a.emit now state = (a1, some snapshot)) :
    a1 = { a with state := snapshot } ∧
      snapshot = JSObject.assign a.state
        (if a.timestamp then JSObject.set state timestampKey (.prim now) else state) := by
  unfold SensorArray.emit at h
  by_cases hlen : (JSObject.keys state).length ≠ 0
  · simp only [hlen, ne_eq, not_false_eq_true, if_true, hacc, Prod.mk.injEq,
      Option.some.injEq] at h
    obtain ⟨h1, h2⟩ := h
    subst h2
    exact ⟨by rw [← h1, hacc], rfl⟩
  · simp [hlen] at h

theorem emit_accumulate (a : SensorArray α) (now : α) (state cumulative : NamedState α)
    (hacc : a.accumulate = true) (hlen : (JSObject.keys state).length ≠ 0)
    (hcum : cumulative = JSObject.assign a.state
      (if a.timestamp then JSObject.set state timestampKey (.prim now) else state)) :
    a.emit now state = ({ a with state := cumulative }, some cumulative) := by
  unfold SensorArray.emit
  subst hcum
  simp only [hlen, ne_eq, not_false_eq_true, if_true, hacc]

end Cycle

/-! ## Properties of registration -/

section Registering

variable {α : Type}

theorem setDelay_sensors (a : SensorArray α) (value : JSValue) :
    (a.setDelay value).state.sensors = a.sensors := by
  unfold SensorArray.setDelay
  split
  · rfl
  · split <;> rfl

theorem applyOption_sensors (a : SensorArray α) (key : String) (value : JSValue) :
    (a.applyOption key value).state.sensors = a.sensors := by
  unfold SensorArray.applyOption
  split
  · exact setDelay_sensors a value
  · split
    · rfl
    · split <;> rfl

theorem applyOptions_sensors (a : SensorArray α) (entries : List (String × JSValue)) :
    (a.applyOptions entries).state.sensors = a.sensors := by
  induction entries generalizing a with
  | nil => rfl
  | cons hd tl ih =>
    obtain ⟨key, value⟩ := hd
    unfold SensorArray.applyOptions
    have h := applyOption_sensors a key value
    cases hr : a.applyOption key value with
    | mk a1 err =>
      rw [hr] at h
      cases err with
      | none => simp only; rw [ih a1]; exact h
      | some e => simpa using h

theorem construct_sensors (opts : Option (List (String × JSValue))) :
    (SensorArray.construct α opts).state.sensors = [] := by
  cases opts with
  | none => rfl
  | some entries => exact applyOptions_sensors (SensorArray.new α) entries

theorem includes_iff (a : SensorArray α) (s : Sensor α) :
    a.includes s = true ↔ s.ref ∈ a.refs := by
  unfold SensorArray.includes SensorArray.refs
  simp only [List.any_eq_true, beq_iff_eq, List.mem_map]

theorem add_refs (a : SensorArray α) (s : Sensor α) :
    (a.add (.sensor s)).refs = if s.ref ∈ a.refs then a.refs else a.refs ++ [s.ref] := by
  by_cases h : s.ref ∈ a.refs
  · have hinc : a.includes s = true := (includes_iff a s).mpr h
    simp [SensorArray.add, hinc, h]
  · have hinc : a.includes s = false := by
      cases hb : a.includes s with
      | false => rfl
      | true => exact absurd ((includes_iff a s).mp hb) h
    rw [if_neg h]
    simp [SensorArray.add, hinc, SensorArray.refs]

theorem add_nodup (a : SensorArray α) (c : Candidate α) (h : a.refs.Nodup) :
    (a.add c).refs.Nodup := by
  cases c with
  | other v => exact h
  | sensor s =>
    rw [add_refs]
    by_cases hm : s.ref ∈ a.refs
    · simpa [hm] using h
    · simp only [hm, if_false]
      rw [List.nodup_append]
      refine ⟨h, by simp, ?_⟩
      intro x hx hx1
      have : x = s.ref := by simpa using hx1
      exact hm (this ▸ hx)

theorem remove_nodup (a : SensorArray α) (c : Candidate α) (h : a.refs.Nodup) :
    (a.remove c).refs.Nodup := by
  cases c with
  | other v =>
    simpa [SensorArray.remove, SensorArray.refs] using h
  | sensor s =>
    unfold SensorArray.remove SensorArray.refs
    exact List.Nodup.sublist (List.Sublist.map _ (List.filter_sublist _)) h

theorem registerAll_nodup (a : SensorArray α) (ops : List (Registration α))
    (h : a.refs.Nodup) : (a.registerAll ops).refs.Nodup := by
  induction ops generalizing a with
  | nil => exact h
  | cons op rest ih =>
    unfold SensorArray.registerAll
    apply ih
    cases op with
    | add c => exact add_nodup a c h
    | remove c => exact remove_nodup a c h

theorem add_add (a : SensorArray α) (s : Sensor α) :
    (a.add (.sensor s)).add (.sensor s) = a.add (.sensor s) := by
  have hmem : s.ref ∈ (a.add (.sensor s)).refs := by
    rw [add_refs]
    by_cases hm : s.ref ∈ a.refs <;> simp [hm]
  have hinc : (a.add (.sensor s)).includes s = true :=
    (includes_iff _ s).mpr hmem
  have key : ∀ b : SensorArray α, b.includes s = true → b.add (.sensor s) = b := by
    intro b hb
    simp [SensorArray.add, hb]
  exact key _ hinc

/-- The loop of `from` registers the candidates one by one with `add`. -/
theorem fromLoop_eq (inst : SensorArray α) (warned : Nat) (cs : List (Candidate α)) :
    (SensorArray.fromLoop inst warned cs).1 =
      inst.registerAll (cs.map Registration.add) := by
  induction cs generalizing inst warned with
  | nil => rfl
  | cons c rest ih =>
    cases c with
    | sensor s =>
      simp only [SensorArray.fromLoop, List.map_cons, SensorArray.registerAll,
        SensorArray.register]
      exact ih _ _
    | other v =>
      simp only [SensorArray.fromLoop, List.map_cons, SensorArray.registerAll,
        SensorArray.register, SensorArray.add]
      exact ih _ _

end Registering

/-! ## Properties of the delay -/

section DelayFlag

variable {α : Type}

theorem setDelay_flag (a : SensorArray α) (value : JSValue)
    (h : a.delay = .animationFrame → a.animationFrameDelay = true) :
    (a.setDelay value).state.delay = .animationFrame →
      (a.setDelay value).state.animationFrameDelay = true := by
  unfold SensorArray.setDelay
  split
  · intro _; rfl
  · split
    · intro h1; cases h1
    · exact h

theorem applyOption_flag (a : SensorArray α) (key : String) (value : JSValue)
    (h : a.delay = .animationFrame → a.animationFrameDelay = true) :
    (a.applyOption key value).state.delay = .animationFrame →
      (a.applyOption key value).state.animationFrameDelay = true := by
  unfold SensorArray.applyOption
  split
  · exact setDelay_flag a value h
  · split
    · exact h
    · split <;> exact h

theorem applyOptions_flag (a : SensorArray α) (entries : List (String × JSValue))
    (h : a.delay = .animationFrame → a.animationFrameDelay = true) :
    (a.applyOptions entries).state.delay = .animationFrame →
      (a.applyOptions entries).state.animationFrameDelay = true := by
  induction entries generalizing a with
  | nil => exact h
  | cons hd tl ih =>
    obtain ⟨key, value⟩ := hd
    unfold SensorArray.applyOptions
    have h1 := applyOption_flag a key value h
    cases hr : a.applyOption key value with
    | mk a1 err =>
      rw [hr] at h1
      cases err with
      | none => exact ih a1 h1
      | some e => exact h1

/-- The half of the agreement between delay and scheduler that the setter
keeps: in an array reached by construction and assignments to `delay`, a delay
that reads as the sentinel has `#animationFrameDelay` set. -/
theorem sentinel_delay_has_flag (opts : Option (List (String × JSValue)))
    (values : List JSValue) :
    ((SensorArray.construct α opts).state.assignDelays values).delay = .animationFrame →
      ((SensorArray.construct α opts).state.assignDelays values).animationFrameDelay
        = true := by
  have h0 : (SensorArray.construct α opts).state.delay = .animationFrame →
      (SensorArray.construct α opts).state.animationFrameDelay = true := by
    cases opts with
    | none => intro h; cases h
    | some entries =>
      exact applyOptions_flag (SensorArray.new α) entries (by intro h; cases h)
  generalize (SensorArray.construct α opts).state = a at h0
  induction values generalizing a with
  | nil => exact h0
  | cons v rest ih =>
    unfold SensorArray.assignDelays
    exact ih _ (setDelay_flag a v h0)

end DelayFlag

/-! ## Properties of the generator -/

section Generator

variable {α : Type}

theorem emit_isStreaming (a : SensorArray α) (now : α) (state : NamedState α) :
    (a.emit now state).1.isStreaming = a.isStreaming := by
  unfold SensorArray.emit
  by_cases h1 : (JSObject.keys state).length ≠ 0
  · by_cases h2 : a.accumulate = true <;> simp [h1, h2]
  · simp [h1]

theorem afterCycle_remaining (a : SensorArray α) :
    (a.afterCycle : PC α).remaining ≤ 2 ∧ (a.afterCycle : PC α) ≠ .fresh ∧
      (a.afterCycle : PC α).pending = 0 := by
  unfold SensorArray.afterCycle
  cases a.suspension <;> simp [PC.remaining, PC.pending]

/-- The end of a cycle keeps the flag and leaves at most three steps. -/
theorem finish_after_stop (a : SensorArray α) (now : α) (state : NamedState α)
    (hflag : a.isStreaming = false) :
    (Gen.finish a now state).1.array.isStreaming = false ∧
      (Gen.finish a now state).1.pc ≠ .fresh ∧
      (Gen.finish a now state).1.pc.remaining ≤ 3 ∧
      (Gen.finish a now state).1.pc.pending = 0 := by
  have hemit := emit_isStreaming a now state
  unfold Gen.finish
  cases he : a.emit now state with
  | mk a1 out =>
    rw [he] at hemit
    have h1 : a1.isStreaming = false := by rw [← hflag]; exact hemit
    cases out with
    | some snapshot =>
      dsimp only
      exact ⟨h1, by simp, by simp [PC.remaining], rfl⟩
    | none =>
      obtain ⟨h2, h3, h4⟩ := afterCycle_remaining a1
      dsimp only
      exact ⟨h1, h3, by omega, h4⟩

/-- One step of a started generator whose flag is cleared. -/
theorem resume_after_stop (now : α) (g : Gen α) (hpc : g.pc ≠ .fresh)
    (hflag : g.array.isStreaming = false) :
    (Gen.resume now g).1.array.isStreaming = false ∧
      (Gen.resume now g).1.pc ≠ .fresh ∧
      (Gen.resume now g).1.pc.remaining ≤ g.pc.remaining - 1 ∧
      (Gen.resume now g).1.pc.pending ≤ g.pc.pending ∧
      (∀ snapshot, (Gen.resume now g).2 = some snapshot →
        g.pc.pending = 1 ∧ (Gen.resume now g).1.pc.pending = 0) := by
  obtain ⟨a, pc⟩ := g
  dsimp only at hpc hflag
  cases pc with
  | fresh => exact absurd rfl hpc
  | loopHead =>
    have e : Gen.resume now { array := a, pc := .loopHead } =
        ({ array := a, pc := .done }, none) := by
      simp [Gen.resume, hflag]
    rw [e]
    exact ⟨hflag, by simp, by simp [PC.remaining], by simp [PC.pending], by simp⟩
  | yielded =>
    obtain ⟨h2, h3, h4⟩ := afterCycle_remaining a
    have e : Gen.resume now { array := a, pc := .yielded } =
        ({ array := a, pc := a.afterCycle }, none) := rfl
    rw [e]
    dsimp only
    have e1 : (PC.yielded : PC α).remaining = 3 := rfl
    exact ⟨hflag, h3, by omega, by omega, by simp⟩
  | delaying s =>
    have e : Gen.resume now { array := a, pc := .delaying s } =
        ({ array := a, pc := .loopHead }, none) := rfl
    rw [e]
    exact ⟨hflag, by simp, by simp [PC.remaining], by simp [PC.pending], by simp⟩
  | done =>
    have e : Gen.resume now { array := a, pc := .done } =
        ({ array := a, pc := .done }, none) := rfl
    rw [e]
    exact ⟨hflag, by simp, by simp [PC.remaining], by simp [PC.pending], by simp⟩
  | threw err =>
    have e : Gen.resume now { array := a, pc := .threw err } =
        ({ array := a, pc := .threw err }, none) := rfl
    rw [e]
    exact ⟨hflag, by simp, by simp [PC.remaining], by simp [PC.pending], by simp⟩
  | polling todo state =>
    have p1 : (PC.polling todo state : PC α).pending = 1 := rfl
    have r1 : (PC.polling todo state : PC α).remaining = todo.length + 4 := rfl
    cases todo with
    | nil =>
      obtain ⟨h1, h2, h3, h4⟩ := finish_after_stop a now state hflag
      have e : Gen.resume now { array := a, pc := .polling [] state } =
          Gen.finish a now state := rfl
      rw [e]
      dsimp only
      simp only [List.length_nil] at r1
      exact ⟨h1, h2, by omega, by omega, fun _ _ => ⟨p1, h4⟩⟩
    | cons s rest =>
      simp only [List.length_cons] at r1
      cases hm : mergeOne a.timestamp state s with
      | error err =>
        have e : Gen.resume now { array := a, pc := .polling (s :: rest) state } =
            ({ array := a, pc := .threw err }, none) := by
          simp [Gen.resume, hm]
        rw [e]
        exact ⟨hflag, by simp, by simp [PC.remaining], by simp [PC.pending], by simp⟩
      | ok merged =>
        cases rest with
        | nil =>
          obtain ⟨h1, h2, h3, h4⟩ := finish_after_stop a now merged hflag
          have e : Gen.resume now { array := a, pc := .polling [s] state } =
              Gen.finish a now merged := by
            simp [Gen.resume, hm]
          rw [e]
          dsimp only
          exact ⟨h1, h2, by omega, by omega, fun _ _ => ⟨p1, h4⟩⟩
        | cons s1 rest1 =>
          have e : Gen.resume now { array := a, pc := .polling (s :: s1 :: rest1) state } =
              ({ array := a, pc := .polling (s1 :: rest1) merged }, none) := by
            simp [Gen.resume, hm]
          rw [e]
          dsimp only
          have r2 : (PC.polling (s1 :: rest1) merged : PC α).remaining =
              (s1 :: rest1).length + 4 := rfl
          simp only [List.length_cons] at r1 r2
          exact ⟨hflag, by simp, by omega, by simp [PC.pending], by simp⟩

/-- A run of a started generator whose flag is cleared and stays so. -/
theorem run_after_stop (events : List (Event α)) (g : Gen α) (hpc : g.pc ≠ .fresh)
    (hflag : g.array.isStreaming = false)
    (hquiet : ∀ m, Event.call m ∈ events →
      ∀ a : SensorArray α, a.isStreaming = false → (m a).isStreaming = false) :
    (Gen.run g events).2.length ≤ g.pc.pending ∧
      (Gen.run g events).1.pc ≠ .fresh ∧
      (Gen.run g events).1.pc.remaining ≤
        g.pc.remaining - (events.filter Event.isResume).length := by
  induction events generalizing g with
  | nil => exact ⟨by simp [Gen.run], hpc, by simp [Gen.run]⟩
  | cons e rest ih =>
    have hrest : ∀ m, Event.call m ∈ rest →
        ∀ a : SensorArray α, a.isStreaming = false → (m a).isStreaming = false :=
      fun m hm => hquiet m (List.mem_cons_of_mem _ hm)
    cases e with
    | call m =>
      have hflag1 : (m g.array).isStreaming = false :=
        hquiet m (List.mem_cons_self _ _) g.array hflag
      have := ih { g with array := m g.array } hpc hflag1 hrest
      simpa [Gen.run, Event.isResume] using this
    | resume now =>
      obtain ⟨h1, h2, h3, h4, h5⟩ := resume_after_stop now g hpc hflag
      have hih := ih (Gen.resume now g).1 h2 h1 hrest
      simp only [Gen.run, List.filter_cons, Event.isResume, if_true, List.length_cons]
      cases hr : Gen.resume now g with
      | mk g1 out =>
        rw [hr] at h3 h4 h5 hih
        simp only at h3 h4 h5 hih
        obtain ⟨i1, i2, i3⟩ := hih
        cases out with
        | none =>
          simp only
          exact ⟨by omega, i2, by omega⟩
        | some snapshot =>
          obtain ⟨j1, j2⟩ := h5 snapshot rfl
          simp only [List.length_cons]
          exact ⟨by omega, i2, by omega⟩

theorem run_threw (a : SensorArray α) (e : TypeError) (now : α) (k : Nat) :
    Gen.run { array := a, pc := .threw e } (List.replicate k (.resume now)) =
      ({ array := a, pc := .threw e }, []) := by
  induction k with
  | zero => rfl
  | succ k ih =>
    simp only [List.replicate_succ, Gen.run, Gen.resume]
    exact ih

theorem run_resume_none (g g1 : Gen α) (now : α) (rest : List (Event α))
    (h : Gen.resume now g = (g1, none)) :
    Gen.run g (.resume now :: rest) = Gen.run g1 rest := by
  simp only [Gen.run, h]

/-- The steps of the `for` loop, resumed once per polled sensor, compute
`mergeAll` and end the cycle. -/
theorem run_polling (a : SensorArray α) (now : α) (todo : List (Sensor α))
    (state : NamedState α) (hne : todo ≠ []) :
    Gen.run { array := a, pc := .polling todo state }
        (List.replicate todo.length (.resume now)) =
      match mergeAll a.timestamp todo state with
      | .ok merged => ((Gen.finish a now merged).1, (Gen.finish a now merged).2.toList)
      | .error e => ({ array := a, pc := .threw e }, []) := by
  induction todo generalizing state with
  | nil => exact absurd rfl hne
  | cons s rest ih =>
    simp only [List.length_cons, List.replicate_succ, Gen.run, mergeAll]
    cases hm : mergeOne a.timestamp state s with
    | error e =>
      have e1 : Gen.resume now { array := a, pc := .polling (s :: rest) state } =
          ({ array := a, pc := .threw e }, none) := by
        simp [Gen.resume, hm]
      rw [e1]
      exact run_threw a e now rest.length
    | ok merged =>
      cases rest with
      | nil =>
        have e1 : Gen.resume now { array := a, pc := .polling [s] state } =
            Gen.finish a now merged := by
          simp [Gen.resume, hm]
        rw [e1]
        simp only [List.length_nil, List.replicate_zero, mergeAll]
        cases hf : Gen.finish a now merged with
        | mk g1 out =>
          cases out with
          | none => rfl
          | some snapshot => rfl
      | cons s1 rest1 =>
        have e1 : Gen.resume now { array := a, pc := .polling (s :: s1 :: rest1) state } =
            ({ array := a, pc := .polling (s1 :: rest1) merged }, none) := by
          simp [Gen.resume, hm]
        rw [e1]
        exact ih merged (by simp)

theorem finish_outcome (a : SensorArray α) (now : α) (state : NamedState α)
    (h : mergeAll a.timestamp (a.sensors.filter (fun s => s.hasData)) [] = .ok state) :
    a.cycleOutcome now = ((Gen.finish a now state).1, (Gen.finish a now state).2.toList) := by
  unfold SensorArray.cycleOutcome SensorArray.cycle Gen.finish
  rw [h]
  dsimp only
  cases he : a.emit now state with
  | mk a1 out =>
    cases out with
    | none => rfl
    | some snapshot => rfl

/-- A generator at the loop test of a streaming array, resumed once and then
once per sensor with data, does what `SensorArray.cycle` says: it yields the
snapshot of the cycle and waits at the `yield`, or yields nothing and goes on
to the delay, or throws. -/
theorem run_cycle (a : SensorArray α) (now : α) (hflag : a.isStreaming = true) :
    Gen.run { array := a, pc := .loopHead }
        (List.replicate ((a.sensors.filter (fun s => s.hasData)).length + 1)
          (.resume now)) =
      a.cycleOutcome now := by
  cases hf : a.sensors.filter (fun s => s.hasData) with
  | nil =>
    have e1 : Gen.resume now { array := a, pc := .loopHead } = Gen.finish a now [] := by
      simp [Gen.resume, hflag, hf]
    have hm : mergeAll a.timestamp (a.sensors.filter (fun s => s.hasData)) [] = .ok [] := by
      rw [hf]
      rfl
    rw [finish_outcome a now [] hm]
    simp only [List.length_nil, List.replicate_succ, List.replicate_zero, Gen.run, e1]
    cases hfin : Gen.finish a now [] with
    | mk g1 out =>
      cases out with
      | none => rfl
      | some snapshot => rfl
  | cons s rest =>
    have e1 : Gen.resume now { array := a, pc := .loopHead } =
        ({ array := a, pc := .polling (s :: rest) [] }, none) := by
      simp [Gen.resume, hflag, hf]
    have hp := run_polling a now (s :: rest) [] (by simp)
    rw [List.replicate_succ, run_resume_none _ _ now _ e1, hp]
    cases hm : mergeAll a.timestamp (s :: rest) [] with
    | ok merged =>
      rw [finish_outcome a now merged (by rw [hf]; exact hm)]
    | error e =>
      unfold SensorArray.cycleOutcome SensorArray.cycle
      rw [hf, hm]

theorem ended_of_remaining (pc : PC α) (hpc : pc ≠ .fresh) (h : pc.remaining = 0) :
    pc.ended = true := by
  cases pc <;> simp_all [PC.remaining, PC.ended]

end Generator

/-! ## The claims -/

section Claims

variable {α : Type}

/-- C1 (amended).  Let `B` be registered in the array and report data in a cycle
in which no sensor throws, let `k` be a key of the contribution of `B`, and let
no sensor that is registered after `B` and reports data contribute `k`.  Then
the cycle yields a snapshot, and it maps `k` to the contribution of `B` for
`k`, whatever the sensors registered before `B` contributed; the key
`$timestamp` is excepted when timestamping is on.  So the last registered
sensor with data wins on collision. -/
theorem last_contributor_wins (a : SensorArray α) (now : α)
    (before after : List (Sensor α)) (B : Sensor α) (cB : NamedState α)
    (k : String) (v : Field α)
    (hreg : a.sensors = before ++ B :: after)
    (hdata : B.hasData = true)
    (hok : ∀ s ∈ a.sensors, s.hasData = true → ∃ c, contribution a.timestamp s = .ok c)
    (hB : contribution a.timestamp B = .ok cB)
    (hwf : JSObject.WF cB)
    (hv : JSObject.get cB k = some v)
    (hlast : ∀ s ∈ after, s.hasData = true →
      k ∉ JSObject.keys (s.extractState s.popData))
    (hkey : a.timestamp = true → k ≠ timestampKey) :
    ∃ a1 snapshot, a.cycle now = .ok (a1, some snapshot) ∧
      JSObject.get snapshot k = some v := by
  have hpre : ∀ s ∈ before.filter (fun s => s.hasData),
      ∃ c, contribution a.timestamp s = .ok c := by
    intro s hs
    rw [List.mem_filter] at hs
    exact hok s (by rw [hreg]; exact List.mem_append_left _ hs.1) hs.2
  have hpost : ∀ s ∈ after.filter (fun s => s.hasData),
      ∃ c, contribution a.timestamp s = .ok c := by
    intro s hs
    rw [List.mem_filter] at hs
    exact hok s (by rw [hreg]; exact List.mem_append_right _ (List.mem_cons_of_mem _ hs.1)) hs.2
  have hlast1 : ∀ s ∈ after.filter (fun s => s.hasData),
      k ∉ JSObject.keys (s.extractState s.popData) := by
    intro s hs
    rw [List.mem_filter] at hs
    exact hlast s hs.1 hs.2
  obtain ⟨merged, hm, hmwf, hmk⟩ :=
    mergeAll_get_last a.timestamp _ _ B cB k v hpre hpost hB hwf hv hlast1
  obtain ⟨a1, snapshot, he, hs⟩ := emit_get a now merged k v hmwf hmk hkey
  refine ⟨a1, snapshot, ?_, hs⟩
  unfold SensorArray.cycle
  rw [hreg, filter_hasData_split before after B hdata, hm]
  simp only [he]

/-- C1, witness: two sensors contribute `k`; the snapshot holds the value of
the second. -/
theorem last_contributor_wins_witness :
    ∃ a1 snapshot, pairArray.cycle 0 = .ok (a1, some snapshot) ∧
      JSObject.get snapshot "k" = some (Field.obj [("value", 2)]) :=
  last_contributor_wins pairArray 0 [exampleSensor 1 true 10 ["k"] 1] []
    (exampleSensor 2 true 20 ["k"] 2) [("k", Field.obj [("value", 2)])] "k"
    (Field.obj [("value", 2)]) rfl rfl
    (by
      intro s hs _
      have hs1 : s = exampleSensor 1 true 10 ["k"] 1 ∨ s = exampleSensor 2 true 20 ["k"] 2 := by
        simpa [pairArray, plainArray, SensorArray.construct, SensorArray.applyOptions,
          SensorArray.applyOption, SensorArray.new, SensorArray.add, SensorArray.includes,
          exampleSensor, toBoolean] using hs
      rcases hs1 with h | h <;> subst h <;> exact ⟨_, rfl⟩)
    rfl (by simp [JSObject.WF, JSObject.keys]) rfl (by simp) (by decide)

/-- C1, counterexample.  Three sensors are registered in the order 1, 2, 3, all
report data and all contribute the key `k`.  The first is registered before
the second and they share `k`, yet the snapshot maps `k` to the value of the
third sensor and not to the value of the second. -/
theorem later_sensor_overrides_second :
    tripleArray.sensors.map (fun s => s.ref) = [1, 2, 3] ∧
    tripleArray.sensors.map (fun s => s.hasData) = [true, true, true] ∧
    tripleArray.sensors.map (fun s => JSObject.get (s.extractState s.popData) "k") =
      [some (Field.obj [("value", 1)]), some (Field.obj [("value", 2)]),
        some (Field.obj [("value", 3)])] ∧
    (tripleArray.cycle 0).toOption.map Prod.snd =
      some (some [("k", Field.obj [("value", 3)])]) := by
  decide

/-- C3 (amended).  In snapshot mode, a cycle in which `B` is the only registered
sensor with data, and contributes a non-empty mapping without throwing,
yields a snapshot and leaves the array as it was.  The keys of the snapshot
are the keys of the contribution of `B`, together with the top-level
`$timestamp` when timestamping is on, and no others.  The snapshot does not
depend on the mapping kept from earlier cycles. -/
theorem snapshot_mode_keys (a : SensorArray α) (now : α) (B : Sensor α)
    (cB : NamedState α)
    (hacc : a.accumulate = false)
    (honly : a.sensors.filter (fun s => s.hasData) = [B])
    (hB : contribution a.timestamp B = .ok cB)
    (hne : cB ≠ []) :
    ∃ snapshot, a.cycle now = .ok (a, some snapshot) ∧
      (∀ k, k ∈ JSObject.keys snapshot ↔
        (k ∈ JSObject.keys (B.extractState B.popData) ∨
          (a.timestamp = true ∧ k = timestampKey))) ∧
      (∀ earlier : NamedState α,
        SensorArray.cycle { a with state := earlier } now =
          .ok ({ a with state := earlier }, some snapshot)) := by
  have hlen := keys_assign_nil_ne cB hne
  have hemit : ∀ b : SensorArray α, b.accumulate = false → b.timestamp = a.timestamp →
      b.emit now (JSObject.assign [] cB) =
        (b, some (if a.timestamp then
          JSObject.set (JSObject.assign [] cB) timestampKey (.prim now)
          else JSObject.assign [] cB)) := by
    intro b hb1 hb2
    unfold SensorArray.emit
    simp [hlen, hb1, hb2]
  refine ⟨if a.timestamp then
      JSObject.set (JSObject.assign [] cB) timestampKey (.prim now)
      else JSObject.assign [] cB, ?_, ?_, ?_⟩
  · rw [cycle_single a now B cB honly hB, hemit a hacc rfl]
  · intro k
    by_cases hts : a.timestamp = true
    · simp only [hts, if_true, JSObject.mem_keys_set, JSObject.mem_keys_assign,
        contribution_keys _ _ _ hB, true_and]
      simp only [JSObject.keys, List.map_nil, List.not_mem_nil, false_or]
      tauto
    · simp only [hts, Bool.false_eq_true, if_false, JSObject.mem_keys_assign,
        contribution_keys _ _ _ hB, false_and, or_false]
      simp [JSObject.keys]
  · intro earlier
    rw [cycle_single { a with state := earlier } now B cB honly hB,
      hemit { a with state := earlier } hacc rfl]

/-- C3, witness: the default array with one idle and one busy sensor; the
snapshot has the key `b` of the busy sensor and the key `$timestamp`. -/
theorem snapshot_mode_keys_witness :
    ∃ snapshot, idleAndBusy.cycle 99 = .ok (idleAndBusy, some snapshot) ∧
      (∀ k, k ∈ JSObject.keys snapshot ↔ (k = "b" ∨ k = "$timestamp")) := by
  obtain ⟨snapshot, h1, h2, _⟩ :=
    snapshot_mode_keys idleAndBusy 99
      { exampleSensor 2 true 20 ["b"] 2 with timestamp := true }
      [("b", Field.obj [("value", 2), ("$timestamp", 20)])] rfl rfl rfl (by simp)
  refine ⟨snapshot, h1, fun k => ?_⟩
  have hts : idleAndBusy.timestamp = true := rfl
  have hkeys : JSObject.keys
      (({ exampleSensor 2 true 20 ["b"] 2 with timestamp := true } : Sensor Nat).extractState
        ({ exampleSensor 2 true 20 ["b"] 2 with timestamp := true } : Sensor Nat).popData) =
      ["b"] := rfl
  have h3 := h2 k
  rw [hkeys, hts] at h3
  rw [h3]
  simp [timestampKey]

/-- C3, counterexample.  The default array is in snapshot mode and timestamps.
Its first sensor has no data, its second has data and contributes the one key
`b`; the snapshot yielded has the key `$timestamp` beside `b`, which is not a
key of the contribution of the second sensor. -/
theorem snapshot_has_timestamp_key :
    idleAndBusy.accumulate = false ∧
    idleAndBusy.sensors.map (fun s => s.hasData) = [false, true] ∧
    idleAndBusy.sensors.map (fun s => JSObject.keys (s.extractState s.popData)) =
      [["a"], ["b"]] ∧
    (idleAndBusy.cycle 99).toOption.map (fun r => r.2.map JSObject.keys) =
      some (some ["b", "$timestamp"]) := by
  decide

/-- C5 (amended).  With timestamping on, let `S` be a registered sensor that
reports data in a cycle in which no polled sensor throws, and let the first
top-level field of its contribution, under the key `k0`, be an object.  If
`k0` is not `$timestamp` and no sensor that is registered after `S` and
reports data contributes `k0`, the cycle yields a snapshot whose field `k0`
is that object with `$timestamp` set to the capture time of the sample popped
from `S`.  Every other top-level field of the contribution, under a key that
is not `$timestamp` and that no sensor registered after `S` and reporting
data contributes, is in the snapshot the value that `extractState` returned:
the array stamps the first field only. -/
theorem first_field_carries_capture_time (a : SensorArray α) (now : α)
    (before after : List (Sensor α)) (S : Sensor α) (k0 : String)
    (props : JSObject α) (rest : NamedState α)
    (hts : a.timestamp = true)
    (hreg : a.sensors = before ++ S :: after)
    (hdata : S.hasData = true)
    (hok : ∀ s ∈ a.sensors, s.hasData = true → ∃ c, contribution a.timestamp s = .ok c)
    (hext : S.extractState S.popData = (k0, .obj props) :: rest)
    (hwf : JSObject.WF (S.extractState S.popData))
    (hlast : ∀ s ∈ after, s.hasData = true →
      k0 ∉ JSObject.keys (s.extractState s.popData))
    (hkey : k0 ≠ timestampKey) :
    ∃ a1 snapshot, a.cycle now = .ok (a1, some snapshot) ∧
      JSObject.get snapshot k0 =
        some (.obj (JSObject.set props timestampKey S.popData.timestamp)) ∧
      JSObject.get (JSObject.set props timestampKey S.popData.timestamp) timestampKey =
        some S.popData.timestamp ∧
      (∀ k v, k ≠ timestampKey → JSObject.get rest k = some v →
        (∀ s ∈ after, s.hasData = true → k ∉ JSObject.keys (s.extractState s.popData)) →
        JSObject.get snapshot k = some v) := by
  have hpre : ∀ s ∈ before.filter (fun s => s.hasData),
      ∃ c, contribution a.timestamp s = .ok c := by
    intro s hs
    rw [List.mem_filter] at hs
    exact hok s (by rw [hreg]; exact List.mem_append_left _ hs.1) hs.2
  have hpost : ∀ s ∈ after.filter (fun s => s.hasData),
      ∃ c, contribution a.timestamp s = .ok c := by
    intro s hs
    rw [List.mem_filter] at hs
    exact hok s (by rw [hreg]; exact List.mem_append_right _ (List.mem_cons_of_mem _ hs.1)) hs.2
  have hS : contribution a.timestamp S =
      .ok ((k0, .obj (JSObject.set props timestampKey S.popData.timestamp)) :: rest) := by
    unfold contribution
    simp [hts, hext, stampFirst]
  have hkeys := contribution_keys _ _ _ hS
  have hwfS : JSObject.WF
      ((k0, Field.obj (JSObject.set props timestampKey S.popData.timestamp)) :: rest) := by
    unfold JSObject.WF
    rw [hkeys]
    exact hwf
  have hk0rest : k0 ∉ JSObject.keys rest := by
    have h1 : JSObject.WF ((k0, Field.obj props) :: rest) := hext ▸ hwf
    have h2 : k0 ∉ JSObject.keys rest ∧ JSObject.WF rest := by
      simpa [JSObject.WF, JSObject.keys] using h1
    exact h2.1
  have hlast0 : ∀ s ∈ after.filter (fun s => s.hasData),
      k0 ∉ JSObject.keys (s.extractState s.popData) := by
    intro s hs
    rw [List.mem_filter] at hs
    exact hlast s hs.1 hs.2
  obtain ⟨merged, hm, hmwf, hmk⟩ :=
    mergeAll_get_last a.timestamp _ _ S _ k0
      (.obj (JSObject.set props timestampKey S.popData.timestamp)) hpre hpost hS hwfS
      (by simp [JSObject.get]) hlast0
  obtain ⟨a1, snapshot, he, hs⟩ := emit_get a now merged k0 _ hmwf hmk (fun _ => hkey)
  have hcycle : a.cycle now = .ok (a1, some snapshot) := by
    unfold SensorArray.cycle
    rw [hreg, filter_hasData_split before after S hdata, hm]
    simp only [he]
  refine ⟨a1, snapshot, hcycle, hs, ?_, ?_⟩
  · simp [JSObject.get_set]
  · intro k v hk hv hfree
    have hkk0 : ¬ k0 = k := by
      intro h
      apply hk0rest
      rw [h]
      by_contra hmem
      rw [← JSObject.get_eq_none_iff, hv] at hmem
      cases hmem
    have hlastk : ∀ s ∈ after.filter (fun s => s.hasData),
        k ∉ JSObject.keys (s.extractState s.popData) := by
      intro s hs1
      rw [List.mem_filter] at hs1
      exact hfree s hs1.1 hs1.2
    obtain ⟨merged1, hm1, _, hmk1⟩ :=
      mergeAll_get_last a.timestamp _ _ S _ k v hpre hpost hS hwfS
        (by simp [JSObject.get, hkk0, hv]) hlastk
    have hsame : merged1 = merged := by
      rw [hm] at hm1
      cases hm1
      rfl
    obtain ⟨a2, snapshot2, he2, hs2⟩ :=
      emit_get a now merged k v hmwf (hsame ▸ hmk1) (fun _ => hk)
    rw [he] at he2
    cases he2
    exact hs2

/-- C5, witness: the sensor of `twoFields`; its first field `x` is stamped
with the capture time 10, its second field `y` is passed on as extracted. -/
theorem first_field_carries_capture_time_witness :
    ∃ a1 snapshot, twoFields.cycle 99 = .ok (a1, some snapshot) ∧
      JSObject.get snapshot "x" =
        some (.obj (JSObject.set [("value", 1)] timestampKey 10)) ∧
      JSObject.get (JSObject.set [("value", 1)] timestampKey 10) timestampKey = some 10 ∧
      (∀ k v, k ≠ timestampKey →
        JSObject.get [("y", Field.obj [("value", 1)])] k = some v →
        (∀ s ∈ ([] : List (Sensor Nat)), s.hasData = true →
          k ∉ JSObject.keys (s.extractState s.popData)) →
        JSObject.get snapshot k = some v) :=
  first_field_carries_capture_time twoFields 99 []
    [] { exampleSensor 1 true 10 ["x", "y"] 1 with timestamp := true } "x"
    [("value", 1)] [("y", Field.obj [("value", 1)])] rfl rfl rfl
    (by
      intro s hs _
      have hs1 : s = { exampleSensor 1 true 10 ["x", "y"] 1 with timestamp := true } := by
        simpa [twoFields, SensorArray.new, SensorArray.add, SensorArray.includes] using hs
      subst hs1
      exact ⟨_, rfl⟩)
    rfl (by simp [JSObject.WF, JSObject.keys, exampleSensor]) (by simp) (by decide)

/-- C5, counterexample.  The default array timestamps.  Its one sensor reports
a sample captured at time 10 and contributes the two top-level fields `x` and
`y`.  In the snapshot the field `x` carries `$timestamp` 10, and the field
`y`, sourced from the same contribution, carries no `$timestamp`. -/
theorem second_field_has_no_timestamp :
    twoFields.timestamp = true ∧
    twoFields.sensors.map (fun s => (s.hasData, s.popData.timestamp)) = [(true, 10)] ∧
    twoFields.sensors.map (fun s => JSObject.keys (s.extractState s.popData)) =
      [["x", "y"]] ∧
    (twoFields.cycle 99).toOption.map Prod.snd =
      some (some [("x", Field.obj [("value", 1), ("$timestamp", 10)]),
        ("y", Field.obj [("value", 1)]), ("$timestamp", Field.prim 99)]) ∧
    JSObject.get [("value", 1)] timestampKey = (none : Option Nat) := by
  decide

/-- C2 (amended).  In accumulate mode, take two consecutive yielding cycles in
which no polled sensor throws: in the earlier one sensor `A` reports data and
the cycle yields the mapping `previous`, which is then the cumulative mapping;
in the later one `B` is the only sensor with data.  Then the later cycle
yields the cumulative mapping, and key by key it is `previous` overwritten by
the merge of the cycle, which is the contribution of `B` with, when
timestamping is on, the top-level `$timestamp` set to the assembly time.  So
the snapshot holds every key of the contribution of `B` with the value of
`B`, and every key that `A` contributed in the earlier cycle with the value of
`A`, unless `B` contributes that key now or a sensor registered after `A`
contributed it in the earlier cycle; the key `$timestamp` is excepted from
both when timestamping is on, and then holds the assembly time. -/
theorem accumulate_overwrites_previous (a0 a1 : SensorArray α) (t1 t2 : α)
    (previous : NamedState α) (before after sensors2 : List (Sensor α))
    (A B : Sensor α) (cA cB : NamedState α)
    (hacc : a0.accumulate = true)
    (hreg : a0.sensors = before ++ A :: after)
    (hA : A.hasData = true)
    (hcA : contribution a0.timestamp A = .ok cA)
    (hwfA : JSObject.WF cA)
    (hfirst : a0.cycle t1 = .ok (a1, some previous))
    (honly : sensors2.filter (fun s => s.hasData) = [B])
    (hB : contribution a0.timestamp B = .ok cB)
    (hwf : JSObject.WF cB)
    (hne : cB ≠ []) :
    ∃ a2 snapshot,
      SensorArray.cycle { a1 with sensors := sensors2 } t2 = .ok (a2, some snapshot) ∧
      a1.state = previous ∧ a2.state = snapshot ∧
      (∀ k v,
        JSObject.get (if a0.timestamp then JSObject.set cB timestampKey (.prim t2) else cB) k
          = some v →
        JSObject.get snapshot k = some v) ∧
      (∀ k,
        JSObject.get (if a0.timestamp then JSObject.set cB timestampKey (.prim t2) else cB) k
          = none →
        JSObject.get snapshot k = JSObject.get previous k) ∧
      (∀ k v, JSObject.get cB k = some v → (a0.timestamp = true → k ≠ timestampKey) →
        JSObject.get snapshot k = some v) ∧
      (∀ k v, JSObject.get cA k = some v →
        (∀ s ∈ after, s.hasData = true → k ∉ JSObject.keys (s.extractState s.popData)) →
        (a0.timestamp = true → k ≠ timestampKey) → k ∉ JSObject.keys cB →
        JSObject.get snapshot k = some v) ∧
      (a0.timestamp = true → JSObject.get snapshot timestampKey = some (.prim t2)) := by
  -- the earlier cycle
  have hfirst1 := hfirst
  unfold SensorArray.cycle at hfirst1
  rw [hreg, filter_hasData_split before after A hA] at hfirst1
  cases hm : mergeAll a0.timestamp
      (before.filter (fun s => s.hasData) ++ A :: after.filter (fun s => s.hasData)) [] with
  | error e => rw [hm] at hfirst1; cases hfirst1
  | ok merged1 =>
    rw [hm] at hfirst1
    have hemit1 : a0.emit t1 merged1 = (a1, some previous) := by
      simpa using hfirst1
    obtain ⟨ha1, _⟩ := emit_accumulate_inv a0 a1 t1 merged1 previous hacc hemit1
    -- the later cycle
    have hlen : (JSObject.keys cB).length ≠ 0 := by
      cases cB with
      | nil => exact absurd rfl hne
      | cons hd tl => simp [JSObject.keys]
    have hts : (SensorArray.mk sensors2 a1.isStreaming a1.accumulate a1.state a1.delay
        a1.animationFrameDelay a1.timestamp).timestamp = a0.timestamp := by
      rw [ha1]
    have hcycle := cycle_single
      (SensorArray.mk sensors2 a1.isStreaming a1.accumulate a1.state a1.delay
        a1.animationFrameDelay a1.timestamp) t2 B cB honly (by rw [hts]; exact hB)
    have hstate : a1.state = previous := by rw [ha1]
    have htime : a1.timestamp = a0.timestamp := by rw [ha1]
    rw [JSObject.assign_nil cB hwf,
      emit_accumulate _ t2 cB (JSObject.assign previous
        (if a0.timestamp then JSObject.set cB timestampKey (.prim t2) else cB))
        (by rw [ha1]; exact hacc) hlen (by simp only [hstate, htime])] at hcycle
    have hwfM : JSObject.WF
        (if a0.timestamp then JSObject.set cB timestampKey (.prim t2) else cB) := by
      by_cases h : a0.timestamp = true
      · simpa [h] using JSObject.wf_set _ _ _ hwf
      · simpa [h] using hwf
    have hover : ∀ k v,
        JSObject.get (if a0.timestamp then JSObject.set cB timestampKey (.prim t2) else cB) k
          = some v →
        JSObject.get (JSObject.assign previous
          (if a0.timestamp then JSObject.set cB timestampKey (.prim t2) else cB)) k
            = some v :=
      fun k v hv => JSObject.get_assign_of_get _ _ _ _ hwfM hv
    have hkeep : ∀ k,
        JSObject.get (if a0.timestamp then JSObject.set cB timestampKey (.prim t2) else cB) k
          = none →
        JSObject.get (JSObject.assign previous
          (if a0.timestamp then JSObject.set cB timestampKey (.prim t2) else cB)) k
            = JSObject.get previous k :=
      fun k hk => JSObject.get_assign_of_not_mem _ _ _
        ((JSObject.get_eq_none_iff _ _).mp hk)
    have hnew : ∀ k v, JSObject.get cB k = some v →
        (a0.timestamp = true → k ≠ timestampKey) →
        JSObject.get (JSObject.assign previous
          (if a0.timestamp then JSObject.set cB timestampKey (.prim t2) else cB)) k
            = some v := by
      intro k v hv hk
      apply hover
      by_cases h : a0.timestamp = true
      · have hk1 : ¬ timestampKey = k := fun e => hk h e.symm
        simp [h, JSObject.get_set, hk1, hv]
      · simp [h, hv]
    have hold : ∀ k, k ∉ JSObject.keys cB → (a0.timestamp = true → k ≠ timestampKey) →
        JSObject.get (JSObject.assign previous
          (if a0.timestamp then JSObject.set cB timestampKey (.prim t2) else cB)) k
            = JSObject.get previous k := by
      intro k hk hkey
      apply JSObject.get_assign_of_not_mem
      by_cases h : a0.timestamp = true
      · simp only [h, if_true, JSObject.mem_keys_set]
        rintro (h1 | h1)
        · exact hkey h h1
        · exact hk h1
      · simpa [h] using hk
    have hstamp : a0.timestamp = true →
        JSObject.get (JSObject.assign previous
          (if a0.timestamp then JSObject.set cB timestampKey (.prim t2) else cB))
            timestampKey = some (.prim t2) := by
      intro h
      apply hover
      simp [h, JSObject.get_set]
    refine ⟨_, _, hcycle, hstate, rfl, hover, hkeep, hnew, ?_, hstamp⟩
    intro k v hv hfree hkey hk
    rw [hold k hk hkey]
    have hpre := fun s (hs : s ∈ before.filter (fun s => s.hasData)) =>
      mergeAll_ok_inv _ _ _ _ hm s (List.mem_append_left _ hs)
    have hpost := fun s (hs : s ∈ after.filter (fun s => s.hasData)) =>
      mergeAll_ok_inv _ _ _ _ hm s (List.mem_append_right _ (List.mem_cons_of_mem _ hs))
    have hfree1 : ∀ s ∈ after.filter (fun s => s.hasData),
        k ∉ JSObject.keys (s.extractState s.popData) := by
      intro s hs
      rw [List.mem_filter] at hs
      exact hfree s hs.1 hs.2
    obtain ⟨merged, hm2, hmwf, hmk⟩ :=
      mergeAll_get_last a0.timestamp _ _ A cA k v hpre hpost hcA hwfA hv hfree1
    rw [hm] at hm2
    cases hm2
    obtain ⟨a3, snapshot3, he3, hs3⟩ := emit_get a0 t1 merged1 k v hmwf hmk hkey
    rw [hemit1] at he3
    cases he3
    exact hs3

/-- C2, witness: the first sensor of `accumulating` contributes `a` in the
earlier cycle; in the later cycle only the second sensor has data and
contributes `b`; the later snapshot holds the value of the second sensor
under `b` and still the value of the first under `a`. -/
theorem accumulate_overwrites_previous_witness :
    ∃ a2 snapshot,
      SensorArray.cycle
        { accumulated with
          sensors := [exampleSensor 1 false 11 ["a"] 1, exampleSensor 2 true 20 ["b"] 2] } 2 =
        .ok (a2, some snapshot) ∧
      JSObject.get snapshot "b" = some (Field.obj [("value", 2)]) ∧
      JSObject.get snapshot "a" = some (Field.obj [("value", 1)]) := by
  obtain ⟨a2, snapshot, h1, _, _, _, _, h5, h6, _⟩ :=
    accumulate_overwrites_previous accumulating accumulated 1 2
      [("a", Field.obj [("value", 1)])] [] [exampleSensor 2 false 20 ["b"] 2]
      [exampleSensor 1 false 11 ["a"] 1, exampleSensor 2 true 20 ["b"] 2]
      (exampleSensor 1 true 10 ["a"] 1) (exampleSensor 2 true 20 ["b"] 2)
      [("a", Field.obj [("value", 1)])] [("b", Field.obj [("value", 2)])]
      rfl rfl rfl rfl (by simp [JSObject.WF, JSObject.keys]) rfl rfl rfl
      (by simp [JSObject.WF, JSObject.keys]) (by simp)
  refine ⟨a2, snapshot, h1, h5 "b" _ rfl (by decide), ?_⟩
  exact h6 "a" _ rfl (by intro s hs; simp at hs; subst hs; decide) (by decide)
    (by decide)

/-- C2, counterexample.  An accumulating array has three sensors.  In the
earlier cycle the first and the second report and both contribute `k`, with
the values 1 and 2; the cycle yields `k` with the value 2.  In the later
cycle only the third sensor reports, and it contributes `j` and not `k`.  The
first sensor contributed `k` in the earlier cycle and the third does not
overwrite it, yet the later snapshot holds under `k` the value 2 of the
second sensor and not the value 1 of the first. -/
theorem overridden_key_is_not_restored :
    overridden.accumulate = true ∧
    overridden.sensors.map (fun s => (s.ref, s.hasData)) =
      [(1, true), (2, true), (3, false)] ∧
    overridden.sensors.map (fun s => JSObject.get (s.extractState s.popData) "k") =
      [some (Field.obj [("value", 1)]), some (Field.obj [("value", 2)]), none] ∧
    overridden.cycle 1 =
      .ok ({ overridden with state := [("k", Field.obj [("value", 2)])] },
        some [("k", Field.obj [("value", 2)])]) ∧
    overriddenLater.sensors.map (fun s => (s.ref, s.hasData)) =
      [(1, false), (2, false), (3, true)] ∧
    overriddenLater.sensors.map (fun s => JSObject.keys (s.extractState s.popData)) =
      [["k"], ["k"], ["j"]] ∧
    (overriddenLater.cycle 2).toOption.map
        (fun r => r.2.map (fun snapshot => JSObject.get snapshot "k")) =
      some (some (some (Field.obj [("value", 2)]))) := by
  refine ⟨by decide, by decide, by decide, rfl, by decide, by decide, by decide⟩

/-- The part of the delay validation that the setter does perform: a string
that starts with a character other than white space, a sign and a decimal
digit, the sentinel apart, is refused with a `TypeError`, and the array,
hence the delay read back, is left as it was. -/
theorem non_numeric_string_rejected (a : SensorArray α) (c0 : Char) (tl : List Char)
    (hsentinel : String.mk (c0 :: tl) ≠ frameSentinel)
    (hws : isStrWhiteSpaceChar c0 = false) (hminus : c0 ≠ '-') (hplus : c0 ≠ '+')
    (hdigit : digitValue 10 c0 = none) :
    (a.setDelay (.str (String.mk (c0 :: tl)))).error ≠ none ∧
      (a.setDelay (.str (String.mk (c0 :: tl)))).state = a := by
  have hparse : Number.parseInt (.str (String.mk (c0 :: tl))) = .nan :=
    parseIntChars_no_digit c0 tl hws hminus hplus hdigit
  have hne : JSValue.str (String.mk (c0 :: tl)) ≠ .str frameSentinel := by
    intro h
    exact hsentinel (by injection h)
  have hset : a.setDelay (.str (String.mk (c0 :: tl))) =
      { state := a, error := some "Invalid delay value" } := by
    unfold SensorArray.setDelay
    rw [if_neg hne, hparse]
    rfl
  rw [hset]
  exact ⟨by simp, rfl⟩

/-- C4, the failing input.  On the default array, whose delay is 0, assigning
the negative number -5 throws nothing and the delay read back is -5, and
assigning the fractional number 1.5 throws nothing and the delay read back is
1: `Number.parseInt` on line 56 has made an integer of the value before
`Number.isInteger` tests it, while the text of the `TypeError` of line 60
asks for a valid positive integer. -/
theorem negative_and_fractional_delay_accepted :
    (SensorArray.new Nat).getDelay = .int 0 ∧
    ((SensorArray.new Nat).setDelay (.int (-5))).error = none ∧
    ((SensorArray.new Nat).setDelay (.int (-5))).state.getDelay = .int (-5) ∧
    ((SensorArray.new Nat).setDelay (.frac false 15 1)).error = none ∧
    ((SensorArray.new Nat).setDelay (.frac false 15 1)).state.getDelay = .int 1 := by
  decide

/-- C9 (amended).  Assigning to `delay` the sentinel string, or a non-negative
integer below `10^21`, throws nothing, and the getter then returns the value
assigned. -/
theorem delay_round_trip (a : SensorArray α) (value : JSValue)
    (hvalid : value = .str frameSentinel ∨ ∃ n : Nat, n < 10 ^ 21 ∧ value = .int (n : Int)) :
    (a.setDelay value).error = none ∧ (a.setDelay value).state.getDelay = value := by
  rcases hvalid with h | ⟨n, hn, h⟩
  · subst h
    simp [SensorArray.setDelay, SensorArray.getDelay, Delay.toJS]
  · subst h
    have hne : JSValue.int (n : Int) ≠ .str frameSentinel := by simp
    unfold SensorArray.setDelay
    rw [if_neg hne, parseInt_nat n hn]
    simp [Number.integerOf, SensorArray.getDelay, Delay.toJS]

/-- C9, witness: the delay 250. -/
theorem delay_round_trip_witness :
    ((SensorArray.new Nat).setDelay (.int 250)).error = none ∧
      ((SensorArray.new Nat).setDelay (.int 250)).state.getDelay = .int 250 :=
  delay_round_trip (SensorArray.new Nat) (.int 250) (Or.inr ⟨250, by norm_num, rfl⟩)

/-- C9, counterexample.  The non-negative integer `10^21` prints as `1e+21`, of
which `Number.parseInt` reads the digit 1: the assignment throws nothing and
the delay read back is 1. -/
theorem huge_delay_reads_back_one :
    toJSString (.int (10 ^ 21)) = "1e+21".toList ∧
    ((SensorArray.new Nat).setDelay (.int (10 ^ 21))).error = none ∧
    ((SensorArray.new Nat).setDelay (.int (10 ^ 21))).state.getDelay = .int 1 := by
  decide

/-- C10, the failing input.  After the sentinel and then the integer 100 have
been assigned to `delay`, the getter returns 100 while
`#animationFrameDelay` is still true, so the loop still suspends by
frame-sync and not by the timer. -/
theorem frame_flag_survives_integer_delay :
    frameThenTimer.error = none ∧
    frameThenTimer.state.getDelay = .int 100 ∧
    frameThenTimer.state.animationFrameDelay = true ∧
    frameThenTimer.state.suspension = some .frame := by
  decide

/-- C7.  In an array reached from a fresh instance, built with any options, by
any sequence of `add` and `remove` calls, no sensor is registered twice; and
for every sensor `s`, `add(s)` followed by `add(s)` leaves the same array as a
single `add(s)`, in which `s` occurs exactly once. -/
theorem no_sensor_registered_twice (opts : Option (List (String × JSValue)))
    (ops : List (Registration α)) :
    ((SensorArray.construct α opts).state.registerAll ops).refs.Nodup ∧
    ∀ s : Sensor α,
      (((SensorArray.construct α opts).state.registerAll ops).add (.sensor s)).add
          (.sensor s) =
        ((SensorArray.construct α opts).state.registerAll ops).add (.sensor s) ∧
      ((((SensorArray.construct α opts).state.registerAll ops).add (.sensor s)).refs.count
        s.ref) = 1 := by
  have hfresh : (SensorArray.construct α opts).state.refs.Nodup := by
    unfold SensorArray.refs
    rw [construct_sensors]
    exact List.nodup_nil
  have hnodup := registerAll_nodup _ ops hfresh
  refine ⟨hnodup, fun s => ⟨add_add _ s, ?_⟩⟩
  apply List.count_eq_one_of_mem (add_nodup _ (.sensor s) hnodup)
  rw [add_refs]
  by_cases hm : s.ref ∈ ((SensorArray.construct α opts).state.registerAll ops).refs <;>
    simp [hm]

/-- C8, the failing input.  For every sequence of candidates the call
`SensorArray.from(sequence)` evaluates to `undefined`: the body registers the
candidates one by one on a local instance, as `add` would from a fresh array,
and does not return it. -/
theorem from_returns_undefined (sensorArray : List (Candidate α)) :
    SensorArray.from' sensorArray = none ∧
    (SensorArray.fromLoop (SensorArray.new α) 0 sensorArray).1 =
      (SensorArray.new α).registerAll (sensorArray.map Registration.add) ∧
    (SensorArray.fromLoop (SensorArray.new α) 0 sensorArray).1.refs.Nodup := by
  refine ⟨rfl, fromLoop_eq _ _ _, ?_⟩
  rw [fromLoop_eq]
  exact registerAll_nodup _ _ (by simp [SensorArray.refs, SensorArray.new])

/-- C6 (amended).  Let `stop()` be called on the array of a generator whose
body has started, and let no later call set the streaming flag again.  Then
the generator yields at most one further snapshot, and it has ended once it
has been resumed as many times as the steps it had left; at the loop test, a
generator that sees the cleared flag ends without beginning a cycle. -/
theorem stopped_stream_ends (g : Gen α) (events : List (Event α))
    (hstarted : g.pc ≠ .fresh)
    (hquiet : ∀ m, Event.call m ∈ events →
      ∀ a : SensorArray α, a.isStreaming = false → (m a).isStreaming = false) :
    (Gen.run { g with array := g.array.stop } events).2.length ≤ 1 ∧
    (g.pc.remaining ≤ (events.filter Event.isResume).length →
      (Gen.run { g with array := g.array.stop } events).1.pc.ended = true) ∧
    (∀ now, Gen.resume now { array := g.array.stop, pc := .loopHead } =
      ({ array := g.array.stop, pc := .done }, none)) := by
  obtain ⟨h1, h2, h3⟩ :=
    run_after_stop events { g with array := g.array.stop } hstarted rfl hquiet
  refine ⟨?_, ?_, ?_⟩
  · have hp : g.pc.pending ≤ 1 := by
      cases g.pc <;> simp [PC.pending]
    exact le_trans h1 hp
  · intro hlen
    apply ended_of_remaining _ h2
    simp only at h3
    omega
  · intro now
    simp [Gen.resume, SensorArray.stop]

/-- C6, witness: a generator of `pairArray` that awaits the sample of the
second sensor when `stop()` is called completes the cycle in progress, yields
its snapshot, and has ended after five resumptions. -/
theorem stopped_stream_ends_witness :
    (Gen.run
      { array := pairArray.start.stop,
        pc := .polling [exampleSensor 2 true 20 ["k"] 2] [("k", Field.obj [("value", 1)])] }
      [.resume 1, .resume 2, .resume 3, .resume 4, .resume 5]).2.length ≤ 1 ∧
    (Gen.run
      { array := pairArray.start.stop,
        pc := .polling [exampleSensor 2 true 20 ["k"] 2] [("k", Field.obj [("value", 1)])] }
      [.resume 1, .resume 2, .resume 3, .resume 4, .resume 5]).1.pc.ended = true ∧
    (Gen.run
      { array := pairArray.start.stop,
        pc := .polling [exampleSensor 2 true 20 ["k"] 2] [("k", Field.obj [("value", 1)])] }
      [.resume 1, .resume 2, .resume 3, .resume 4, .resume 5]).2 =
        [[("k", Field.obj [("value", 2)])]] := by
  obtain ⟨h1, h2, _⟩ := stopped_stream_ends
    { array := pairArray.start,
      pc := .polling [exampleSensor 2 true 20 ["k"] 2] [("k", Field.obj [("value", 1)])] }
    [.resume 1, .resume 2, .resume 3, .resume 4, .resume 5] (by simp)
    (by intro m hm; simp at hm)
  exact ⟨h1, h2 (by decide), by decide⟩

/-- C6, counterexample.  A sequence is obtained from an array with two
sensors that have data at every poll, `stop()` is called before the first
snapshot is requested and `start()` is never called; the generator, resumed
nine times, yields two snapshots, has not ended, and the streaming flag is
set. -/
theorem stop_before_first_request_is_undone :
    pairArray.stream.array.isStreaming = false ∧
    (Gen.run pairArray.stream (.call SensorArray.stop :: nineResumes)).2.length = 2 ∧
    (Gen.run pairArray.stream (.call SensorArray.stop :: nineResumes)).1.pc.ended = false ∧
    (Gen.run pairArray.stream
      (.call SensorArray.stop :: nineResumes)).1.array.isStreaming = true := by
  decide

end Claims

end Stream
